import Mathlib

/-!
# Verification of the pomeranian automatic-differentiation library

Shallow embedding of `src/pomeranian` (dual.py, node.py, elem_func.py,
forward.py, reverse.py, autodiff.py) and proofs of the frozen claims.

Modelling conventions:
* Python floats are modelled as rationals (`ℚ`); the algebraic identities the
  claims state are field identities, and `ℚ` keeps everything executable.
* The numpy primitives (`np.sin`, `np.cos`, ..., and Python's `**` between
  floats) are external collaborators of the code under verification; they are
  abstracted as an opaque-function record `Prims`.  Division by zero follows
  numpy semantics (no exception), modelled by ℚ's total division.
* A reverse-mode `Node` is a cell in an arena (`Arena := List Node`); the
  Python attribute `partial_derivs` (list of `(child, local gradient)` pairs)
  becomes a list of `(child index, local gradient)` pairs.  Children created
  by an operation are appended at the end of the arena, so "created later"
  means "larger index".
* Fallible Python code (raising exceptions) returns `Except PyErr`.
-/

/-- Error kinds raised by the Python code (`TypeError`, the dimension-mismatch
`Exception` of forward.py/reverse.py, `AttributeError`, `IndexError`, and the
`ValueError` whose message lists the multi-output authoring criteria). -/
inductive PyErr where
  | dimensionMismatch
  | typeError
  | attributeError
  | indexError
  | multiOutputParseFailure
  deriving DecidableEq, Repr

/-- The numpy / Python-float primitives used by the library.  `powf x y`
models Python's `x ** y` for a non-integer-literal exponent. -/
structure Prims where
  sin : ℚ → ℚ
  cos : ℚ → ℚ
  tan : ℚ → ℚ
  exp : ℚ → ℚ
  sqrt : ℚ → ℚ
  log : ℚ → ℚ
  arcsin : ℚ → ℚ
  arccos : ℚ → ℚ
  arctan : ℚ → ℚ
  sinh : ℚ → ℚ
  cosh : ℚ → ℚ
  tanh : ℚ → ℚ
  powf : ℚ → ℚ → ℚ

/-- `Dual` from dual.py: value (`real`) and derivative (`dual`) components. -/
structure Dual where
  real : ℚ
  dual : ℚ
  deriving DecidableEq, Repr

namespace Dual

/-- `Dual.__neg__`. -/
def neg (a : Dual) : Dual := ⟨-a.real, -a.dual⟩

/-- `Dual.__add__`, Dual branch. -/
def add (a b : Dual) : Dual := ⟨a.real + b.real, a.dual + b.dual⟩

/-- `Dual.__add__`, int/float branch (also reached from `__radd__`). -/
def addS (a : Dual) (k : ℚ) : Dual := ⟨a.real + k, a.dual⟩

/-- `Dual.__sub__`, Dual branch. -/
def sub (a b : Dual) : Dual := ⟨a.real - b.real, a.dual - b.dual⟩

/-- `Dual.__sub__`, int/float branch. -/
def subS (a : Dual) (k : ℚ) : Dual := ⟨a.real - k, a.dual⟩

/-- `Dual.__rsub__` (`other - self` for scalar `other`). -/
def rsub (k : ℚ) (a : Dual) : Dual := ⟨k - a.real, -a.dual⟩

/-- `Dual.__mul__`, Dual branch. -/
def mul (a b : Dual) : Dual :=
  ⟨a.real * b.real, a.real * b.dual + a.dual * b.real⟩

/-- `Dual.__mul__`, int/float branch (also reached from `__rmul__`). -/
def mulS (a : Dual) (k : ℚ) : Dual := ⟨a.real * k, a.dual * k⟩

/-- `Dual.__truediv__`, Dual branch. -/
def div (a b : Dual) : Dual :=
  ⟨a.real / b.real, (a.dual * b.real - a.real * b.dual) / b.real ^ 2⟩

/-- `Dual.__truediv__`, int/float branch. -/
def divS (a : Dual) (k : ℚ) : Dual :=
  ⟨a.real * k / k ^ 2, a.dual * k / k ^ 2⟩

/-- `Dual.__rtruediv__` (`other / self` for scalar `other`). -/
def rdiv (k : ℚ) (a : Dual) : Dual :=
  ⟨k / a.real, -(k / a.real ^ 2) * a.dual⟩

/-- `Dual.__pow__`, Dual branch (`temp1 = log(self.real) * other.dual`,
`temp2 = self.dual * other.real / self.real`). -/
def pow (P : Prims) (a b : Dual) : Dual :=
  ⟨P.powf a.real b.real,
   P.powf a.real b.real * (P.log a.real * b.dual + a.dual * b.real / a.real)⟩

/-- `Dual.__pow__`, int/float branch. -/
def powS (P : Prims) (a : Dual) (k : ℚ) : Dual :=
  ⟨P.powf a.real k, P.powf a.real (k - 1) * k * a.dual⟩

/-- `Dual.__rpow__` (`other ** self` for scalar `other`). -/
def rpow (P : Prims) (k : ℚ) (a : Dual) : Dual :=
  ⟨P.powf k a.real, P.log k * P.powf k a.real * a.dual⟩

end Dual

/-- `Node` from node.py: a value and the list of `(child, local gradient)`
pairs; children are arena indices. -/
structure Node where
  real : ℚ
  partial_derivs : List (Nat × ℚ)
  deriving DecidableEq, Repr

/-- The arena of all nodes created so far, in creation order.  A Python
`Node` object is an index into the arena. -/
abbrev Arena := List Node

/-- Arena lookup (total, defaulting like an empty node). -/
def get' (s : Arena) (i : Nat) : Node := s.getD i ⟨0, []⟩

/-- `z.partial_derivs.append(e)` for arena index `i`; out-of-range indices
leave the arena unchanged. -/
def appendEdge : Arena → Nat → Nat × ℚ → Arena
  | [], _, _ => []
  | n :: rest, 0, e => ⟨n.real, n.partial_derivs ++ [e]⟩ :: rest
  | n :: rest, i + 1, e => n :: appendEdge rest i e

/-- The common shape of every node.py operation and Node branch of
elem_func.py: create one child node with value `v`, append one edge
`(child, w)` to each listed parent (in order), return the child.  The child's
index is the arena length before the operation. -/
def pushChild (s : Arena) (ps : List (Nat × ℚ)) (v : ℚ) : Arena × Nat :=
  ((ps.foldl (fun t p => appendEdge t p.1 (s.length, p.2)) s) ++ [⟨v, []⟩],
   s.length)

namespace Node

/-- `Node.__neg__`. -/
def neg (s : Arena) (i : Nat) : Arena × Nat :=
  pushChild s [(i, -1)] (-1 * (get' s i).real)

/-- `Node.__add__`, Node branch. -/
def add (s : Arena) (i j : Nat) : Arena × Nat :=
  pushChild s [(i, 1), (j, 1)] ((get' s i).real + (get' s j).real)

/-- `Node.__add__`, int/float branch (also reached from `__radd__`). -/
def addS (s : Arena) (i : Nat) (k : ℚ) : Arena × Nat :=
  pushChild s [(i, 1)] ((get' s i).real + k)

/-- `Node.__sub__`, Node branch. -/
def sub (s : Arena) (i j : Nat) : Arena × Nat :=
  pushChild s [(i, 1), (j, -1)] ((get' s i).real - (get' s j).real)

/-- `Node.__sub__`, int/float branch. -/
def subS (s : Arena) (i : Nat) (k : ℚ) : Arena × Nat :=
  pushChild s [(i, 1)] ((get' s i).real - k)

/-- `Node.__rsub__` (`other - self` for scalar `other`; Python's
`other.real` on an int/float is `other` itself). -/
def rsub (s : Arena) (k : ℚ) (i : Nat) : Arena × Nat :=
  pushChild s [(i, -1)] (k - (get' s i).real)

/-- `Node.__mul__`, Node branch. -/
def mul (s : Arena) (i j : Nat) : Arena × Nat :=
  pushChild s [(i, (get' s j).real), (j, (get' s i).real)]
    ((get' s i).real * (get' s j).real)

/-- `Node.__mul__`, int/float branch (also reached from `__rmul__`). -/
def mulS (s : Arena) (i : Nat) (k : ℚ) : Arena × Nat :=
  pushChild s [(i, k)] ((get' s i).real * k)

/-- `Node.__truediv__`, Node branch. -/
def div (s : Arena) (i j : Nat) : Arena × Nat :=
  pushChild s
    [(i, 1 / (get' s j).real), (j, -1 * (get' s i).real / (get' s j).real ^ 2)]
    ((get' s i).real / (get' s j).real)

/-- `Node.__truediv__`, int/float branch. -/
def divS (s : Arena) (i : Nat) (k : ℚ) : Arena × Nat :=
  pushChild s [(i, 1 / k)] ((get' s i).real / k)

/-- `Node.__rtruediv__` (`other / self` for scalar `other`). -/
def rdiv (s : Arena) (k : ℚ) (i : Nat) : Arena × Nat :=
  pushChild s [(i, -1 * k / (get' s i).real ^ 2)] (k / (get' s i).real)

/-- `Node.__pow__`, Node branch. -/
def pow (P : Prims) (s : Arena) (i j : Nat) : Arena × Nat :=
  pushChild s
    [(i, (get' s j).real * P.powf (get' s i).real ((get' s j).real - 1)),
     (j, P.powf (get' s i).real (get' s j).real * P.log (get' s i).real)]
    (P.powf (get' s i).real (get' s j).real)

/-- `Node.__pow__`, int/float branch. -/
def powS (P : Prims) (s : Arena) (i : Nat) (k : ℚ) : Arena × Nat :=
  pushChild s [(i, k * P.powf (get' s i).real (k - 1))]
    (P.powf (get' s i).real k)

/-- `Node.__rpow__` (`other ** self` for scalar `other`). -/
def rpow (P : Prims) (s : Arena) (k : ℚ) (i : Nat) : Arena × Nat :=
  pushChild s [(i, P.powf k (get' s i).real * P.log k)]
    (P.powf k (get' s i).real)

end Node

/-! ## The elementary-function library (elem_func.py) -/

/-- The fourteen library elementary functions; `logb` carries its base. -/
inductive ElemFn where
  | sin | cos | tan | exp | sqrt | log
  | logb (base : ℚ)
  | arcsin | arccos | arctan | sinh | cosh | tanh | logistic
  deriving DecidableEq, Repr

/-- The `real_part` / child value / raw-scalar return of each elem_func.py
function (the same numpy formula appears in all three branches of each
function's dispatch). -/
def elemVal (P : Prims) : ElemFn → ℚ → ℚ
  | .sin, x => P.sin x
  | .cos, x => P.cos x
  | .tan, x => P.tan x
  | .exp, x => P.exp x
  | .sqrt, x => P.sqrt x
  | .log, x => P.log x
  | .logb b, x => P.log x / P.log b
  | .arcsin, x => P.arcsin x
  | .arccos, x => P.arccos x
  | .arctan, x => P.arctan x
  | .sinh, x => P.sinh x
  | .cosh, x => P.cosh x
  | .tanh, x => P.tanh x
  | .logistic, x => 1 / (1 + P.exp (-x))

/-- The `dual_part` of each elem_func.py function's Dual branch, as a
function of the argument's `real` (`v`) and `dual` (`d`) components,
transcribing each formula exactly (including its multiplication order). -/
def elemDualPart (P : Prims) : ElemFn → ℚ → ℚ → ℚ
  | .sin, v, d => d * P.cos v
  | .cos, v, d => -P.sin v * d
  | .tan, v, d => 1 / P.cos v ^ 2 * d
  | .exp, v, d => P.exp v * d
  | .sqrt, v, d => 1 / 2 / P.sqrt v * d
  | .log, v, d => 1 / v * d
  | .logb b, v, d => 1 / (v * P.log b) * d
  | .arcsin, v, d => 1 / P.sqrt (1 - v ^ 2) * d
  | .arccos, v, d => -1 / P.sqrt (1 - v ^ 2) * d
  | .arctan, v, d => 1 / (1 + v ^ 2) * d
  | .sinh, v, d => P.cosh v * d
  | .cosh, v, d => P.sinh v * d
  | .tanh, v, d => d * (1 - P.tanh v ^ 2)
  | .logistic, v, d =>
      1 / (1 + P.exp (-v)) * (1 - 1 / (1 + P.exp (-v))) * d

/-- The local gradient appended by each elem_func.py function's Node branch
(`z.partial_derivs.append((child, ...))`), as a function of the node's value.
Note the Node branch of `sqrt` uses `.5 * (z.real ** -.5)` where the Dual
branch uses `0.5 / np.sqrt(z.real)`. -/
def elemEdge (P : Prims) : ElemFn → ℚ → ℚ
  | .sin, v => P.cos v
  | .cos, v => -P.sin v
  | .tan, v => 1 / P.cos v ^ 2
  | .exp, v => P.exp v
  | .sqrt, v => 1 / 2 * P.powf v (-(1 / 2))
  | .log, v => 1 / v
  | .logb b, v => 1 / (v * P.log b)
  | .arcsin, v => 1 / P.sqrt (1 - v ^ 2)
  | .arccos, v => -1 / P.sqrt (1 - v ^ 2)
  | .arctan, v => 1 / (1 + v ^ 2)
  | .sinh, v => P.cosh v
  | .cosh, v => P.sinh v
  | .tanh, v => 1 - P.tanh v ^ 2
  | .logistic, v => 1 / (1 + P.exp (-v)) * (1 - 1 / (1 + P.exp (-v)))

/-- elem_func.py, Dual branch: `return Dual(real_part, dual_part)`. -/
def elemDual (P : Prims) (e : ElemFn) (z : Dual) : Dual :=
  ⟨elemVal P e z.real, elemDualPart P e z.real z.dual⟩

/-- elem_func.py, Node branch: create the child, append one edge to the
argument node, return the child. -/
def elemNode (P : Prims) (e : ElemFn) (s : Arena) (i : Nat) : Arena × Nat :=
  pushChild s [(i, elemEdge P e (get' s i).real)] (elemVal P e (get' s i).real)

/-- elem_func.py, raw int/float branch: the plain numpy value. -/
def elemScalar (P : Prims) (e : ElemFn) (x : ℚ) : ℚ := elemVal P e x

/-! ## Formulas as the claims state them

`claimVal` and `claimDeriv` transcribe the closed forms listed in the claims
(value `f(z)` and derivative `f'(z)`: sin→cos, cos→−sin, tan→sec²,
exp→exp, sqrt→1/(2√z), log→1/z, logb→1/(z·ln base), arcsin→1/√(1−z²),
arccos→−1/√(1−z²), arctan→1/(1+z²), sinh→cosh, cosh→sinh, tanh→1−tanh²,
logistic→σ(z)(1−σ(z)) with σ(z)=1/(1+e^{−z})), with `sec z = 1 / cos z`. -/

/-- The value `f(z)` of each library function, as the spec describes it. -/
def claimVal (P : Prims) : ElemFn → ℚ → ℚ
  | .sin, x => P.sin x
  | .cos, x => P.cos x
  | .tan, x => P.tan x
  | .exp, x => P.exp x
  | .sqrt, x => P.sqrt x
  | .log, x => P.log x
  | .logb b, x => P.log x / P.log b
  | .arcsin, x => P.arcsin x
  | .arccos, x => P.arccos x
  | .arctan, x => P.arctan x
  | .sinh, x => P.sinh x
  | .cosh, x => P.cosh x
  | .tanh, x => P.tanh x
  | .logistic, x => 1 / (1 + P.exp (-x))

/-- The derivative `f'(z)` of each library function, as the claim lists it. -/
def claimDeriv (P : Prims) : ElemFn → ℚ → ℚ
  | .sin, x => P.cos x
  | .cos, x => -P.sin x
  | .tan, x => (1 / P.cos x) ^ 2
  | .exp, x => P.exp x
  | .sqrt, x => 1 / (2 * P.sqrt x)
  | .log, x => 1 / x
  | .logb b, x => 1 / (x * P.log b)
  | .arcsin, x => 1 / P.sqrt (1 - x ^ 2)
  | .arccos, x => -(1 / P.sqrt (1 - x ^ 2))
  | .arctan, x => 1 / (1 + x ^ 2)
  | .sinh, x => P.cosh x
  | .cosh, x => P.sinh x
  | .tanh, x => 1 - P.tanh x ^ 2
  | .logistic, x => 1 / (1 + P.exp (-x)) * (1 - 1 / (1 + P.exp (-x)))

/-! ## User-function bodies

The differentiable-function contract restricts user callables to the
supported operator set and library calls over the named parameters, so a
captured function body is an expression tree.  `Expr.strAtom` stands for a
non-numeric atom (e.g. a string literal) appearing in a body: every operator
and library function raises `TypeError` on it. -/

inductive Expr where
  | const (q : ℚ)
  | var (i : Nat)
  | strAtom
  | neg (a : Expr)
  | add (a b : Expr)
  | sub (a b : Expr)
  | mul (a b : Expr)
  | div (a b : Expr)
  | pow (a b : Expr)
  | elem (e : ElemFn) (a : Expr)
  deriving DecidableEq, Repr

/-- A runtime value during forward-mode evaluation: a raw Python number, a
`Dual`, or the non-numeric atom. -/
inductive DVal where
  | num (q : ℚ)
  | dl (d : Dual)
  | str
  deriving DecidableEq, Repr

/-- Dispatch of `+` over forward-mode operand kinds, following
`Dual.__add__` / `Dual.__radd__` / Python number addition. -/
def dAddV : DVal → DVal → Except PyErr DVal
  | .dl a, .dl b => .ok (.dl (a.add b))
  | .dl a, .num k => .ok (.dl (a.addS k))
  | .num k, .dl b => .ok (.dl (b.addS k))
  | .num k, .num l => .ok (.num (k + l))
  | _, _ => .error .typeError

/-- Dispatch of `-` over forward-mode operand kinds (`Dual.__sub__` /
`Dual.__rsub__`). -/
def dSubV : DVal → DVal → Except PyErr DVal
  | .dl a, .dl b => .ok (.dl (a.sub b))
  | .dl a, .num k => .ok (.dl (a.subS k))
  | .num k, .dl b => .ok (.dl (Dual.rsub k b))
  | .num k, .num l => .ok (.num (k - l))
  | _, _ => .error .typeError

/-- Dispatch of `*` over forward-mode operand kinds (`Dual.__mul__` /
`Dual.__rmul__`). -/
def dMulV : DVal → DVal → Except PyErr DVal
  | .dl a, .dl b => .ok (.dl (a.mul b))
  | .dl a, .num k => .ok (.dl (a.mulS k))
  | .num k, .dl b => .ok (.dl (b.mulS k))
  | .num k, .num l => .ok (.num (k * l))
  | _, _ => .error .typeError

/-- Dispatch of `/` over forward-mode operand kinds (`Dual.__truediv__` /
`Dual.__rtruediv__`). -/
def dDivV : DVal → DVal → Except PyErr DVal
  | .dl a, .dl b => .ok (.dl (a.div b))
  | .dl a, .num k => .ok (.dl (a.divS k))
  | .num k, .dl b => .ok (.dl (Dual.rdiv k b))
  | .num k, .num l => .ok (.num (k / l))
  | _, _ => .error .typeError

/-- Dispatch of `**` over forward-mode operand kinds (`Dual.__pow__` /
`Dual.__rpow__`). -/
def dPowV (P : Prims) : DVal → DVal → Except PyErr DVal
  | .dl a, .dl b => .ok (.dl (a.pow P b))
  | .dl a, .num k => .ok (.dl (a.powS P k))
  | .num k, .dl b => .ok (.dl (Dual.rpow P k b))
  | .num k, .num l => .ok (.num (P.powf k l))
  | _, _ => .error .typeError

/-- Unary negation over forward-mode operand kinds (`Dual.__neg__`). -/
def dNegV : DVal → Except PyErr DVal
  | .dl a => .ok (.dl a.neg)
  | .num k => .ok (.num (-k))
  | .str => .error .typeError

/-- An elem_func.py call over forward-mode operand kinds. -/
def dElemV (P : Prims) (e : ElemFn) : DVal → Except PyErr DVal
  | .dl a => .ok (.dl (elemDual P e a))
  | .num k => .ok (.num (elemScalar P e k))
  | .str => .error .typeError

/-- Forward-mode evaluation of a body expression against an environment of
seeded `Dual`s (one per function parameter). -/
def devalE (P : Prims) (env : List Dual) : Expr → Except PyErr DVal
  | .const q => .ok (.num q)
  | .var i => .ok (.dl (env.getD i ⟨0, 0⟩))
  | .strAtom => .ok .str
  | .neg a => do dNegV (← devalE P env a)
  | .add a b => do dAddV (← devalE P env a) (← devalE P env b)
  | .sub a b => do dSubV (← devalE P env a) (← devalE P env b)
  | .mul a b => do dMulV (← devalE P env a) (← devalE P env b)
  | .div a b => do dDivV (← devalE P env a) (← devalE P env b)
  | .pow a b => do dPowV P (← devalE P env a) (← devalE P env b)
  | .elem e a => do dElemV P e (← devalE P env a)

/-- A runtime value during reverse-mode evaluation: a raw Python number, a
graph node (arena index), or the non-numeric atom. -/
inductive NVal where
  | num (q : ℚ)
  | node (i : Nat)
  | str
  deriving DecidableEq, Repr

/-- Dispatch of `+` over reverse-mode operand kinds (`Node.__add__` /
`Node.__radd__`). -/
def nAddV (s : Arena) : NVal → NVal → Except PyErr (Arena × NVal)
  | .node i, .node j => let r := Node.add s i j; .ok (r.1, .node r.2)
  | .node i, .num k => let r := Node.addS s i k; .ok (r.1, .node r.2)
  | .num k, .node j => let r := Node.addS s j k; .ok (r.1, .node r.2)
  | .num k, .num l => .ok (s, .num (k + l))
  | _, _ => .error .typeError

/-- Dispatch of `-` over reverse-mode operand kinds (`Node.__sub__` /
`Node.__rsub__`). -/
def nSubV (s : Arena) : NVal → NVal → Except PyErr (Arena × NVal)
  | .node i, .node j => let r := Node.sub s i j; .ok (r.1, .node r.2)
  | .node i, .num k => let r := Node.subS s i k; .ok (r.1, .node r.2)
  | .num k, .node j => let r := Node.rsub s k j; .ok (r.1, .node r.2)
  | .num k, .num l => .ok (s, .num (k - l))
  | _, _ => .error .typeError

/-- Dispatch of `*` over reverse-mode operand kinds (`Node.__mul__` /
`Node.__rmul__`). -/
def nMulV (s : Arena) : NVal → NVal → Except PyErr (Arena × NVal)
  | .node i, .node j => let r := Node.mul s i j; .ok (r.1, .node r.2)
  | .node i, .num k => let r := Node.mulS s i k; .ok (r.1, .node r.2)
  | .num k, .node j => let r := Node.mulS s j k; .ok (r.1, .node r.2)
  | .num k, .num l => .ok (s, .num (k * l))
  | _, _ => .error .typeError

/-- Dispatch of `/` over reverse-mode operand kinds (`Node.__truediv__` /
`Node.__rtruediv__`). -/
def nDivV (s : Arena) : NVal → NVal → Except PyErr (Arena × NVal)
  | .node i, .node j => let r := Node.div s i j; .ok (r.1, .node r.2)
  | .node i, .num k => let r := Node.divS s i k; .ok (r.1, .node r.2)
  | .num k, .node j => let r := Node.rdiv s k j; .ok (r.1, .node r.2)
  | .num k, .num l => .ok (s, .num (k / l))
  | _, _ => .error .typeError

/-- Dispatch of `**` over reverse-mode operand kinds (`Node.__pow__` /
`Node.__rpow__`). -/
def nPowV (P : Prims) (s : Arena) : NVal → NVal → Except PyErr (Arena × NVal)
  | .node i, .node j => let r := Node.pow P s i j; .ok (r.1, .node r.2)
  | .node i, .num k => let r := Node.powS P s i k; .ok (r.1, .node r.2)
  | .num k, .node j => let r := Node.rpow P s k j; .ok (r.1, .node r.2)
  | .num k, .num l => .ok (s, .num (P.powf k l))
  | _, _ => .error .typeError

/-- Unary negation over reverse-mode operand kinds (`Node.__neg__`). -/
def nNegV (s : Arena) : NVal → Except PyErr (Arena × NVal)
  | .node i => let r := Node.neg s i; .ok (r.1, .node r.2)
  | .num k => .ok (s, .num (-k))
  | .str => .error .typeError

/-- An elem_func.py call over reverse-mode operand kinds. -/
def nElemV (P : Prims) (e : ElemFn) (s : Arena) :
    NVal → Except PyErr (Arena × NVal)
  | .node i => let r := elemNode P e s i; .ok (r.1, .node r.2)
  | .num k => .ok (s, .num (elemScalar P e k))
  | .str => .error .typeError

/-- Reverse-mode evaluation of a body expression: the environment maps each
function parameter to its seeded node's arena index, and the arena is
threaded left-to-right (Python evaluation order), growing by the side-effect
node creation of each operation. -/
def nevalE (P : Prims) (env : List Nat) : Expr → Arena → Except PyErr (Arena × NVal)
  | .const q, s => .ok (s, .num q)
  | .var i, s => .ok (s, .node (env.getD i 0))
  | .strAtom, s => .ok (s, .str)
  | .neg a, s => do
      let (s1, va) ← nevalE P env a s
      nNegV s1 va
  | .add a b, s => do
      let (s1, va) ← nevalE P env a s
      let (s2, vb) ← nevalE P env b s1
      nAddV s2 va vb
  | .sub a b, s => do
      let (s1, va) ← nevalE P env a s
      let (s2, vb) ← nevalE P env b s1
      nSubV s2 va vb
  | .mul a b, s => do
      let (s1, va) ← nevalE P env a s
      let (s2, vb) ← nevalE P env b s1
      nMulV s2 va vb
  | .div a b, s => do
      let (s1, va) ← nevalE P env a s
      let (s2, vb) ← nevalE P env b s1
      nDivV s2 va vb
  | .pow a b, s => do
      let (s1, va) ← nevalE P env a s
      let (s2, vb) ← nevalE P env b s1
      nPowV P s2 va vb
  | .elem e a, s => do
      let (s1, va) ← nevalE P env a s
      nElemV P e s1 va

/-! ## Captured functions and engine inputs (autodiff.py, forward.py,
reverse.py) -/

/-- The shape of a captured callable's body.  `single` returns one
expression; `multiList` returns a literal bracketed list of expressions (the
shape reverse.py's source extraction accepts); `multiOpaque` returns a list
at run time but its source is not a literal bracketed-list return (e.g. it
returns a local variable), so reverse.py's source extraction fails on it. -/
inductive Body where
  | single (e : Expr)
  | multiList (es : List Expr)
  | multiOpaque (es : List Expr)
  deriving DecidableEq, Repr

/-- A captured user function: `AutoDiff.__init__` records the callable and
its parameter count (`n_inputs`). -/
structure PyFunc where
  n_inputs : Nat
  body : Body
  deriving DecidableEq, Repr

/-- Engine inputs: a raw scalar or a list of scalars (forward.py/reverse.py
convert a raw int/float to a one-element list first). -/
inductive Inputs where
  | scalarIn (x : ℚ)
  | listIn (xs : List ℚ)
  deriving DecidableEq, Repr

/-- The list the engines work on after the int/float-to-list conversion. -/
def Inputs.toL : Inputs → List ℚ
  | .scalarIn x => [x]
  | .listIn xs => xs

/-- The result of one call of the user function in forward mode: one value,
or the list of values of a multi-output function. -/
inductive BRes where
  | one (v : DVal)
  | many (vs : List DVal)
  deriving DecidableEq, Repr

/-- Calling the user function on forward-mode seeds. -/
def evalBodyD (P : Prims) (b : Body) (env : List Dual) : Except PyErr BRes :=
  match b with
  | .single e => do .ok (.one (← devalE P env e))
  | .multiList es => do .ok (.many (← es.mapM (devalE P env)))
  | .multiOpaque es => do .ok (.many (← es.mapM (devalE P env)))

/-- forward.py `_dual_forward`, univariate branch: one `Dual` per input with
the constructor's default derivative (`Dual(input)`, i.e. derivative 1). -/
def seedsUni (xs : List ℚ) : List Dual := xs.map fun x => ⟨x, 1⟩

/-- forward.py `_dual_forward`, multivariate branch: the seeds used by pass
`idx` — all inputs are built with derivative 0 (`Dual(input, 0)`), and the
loop re-seeds input `idx` to derivative 1 for its pass. -/
def oneHot (xs : List ℚ) (idx : Nat) : List Dual :=
  (List.range xs.length).map fun j => ⟨xs.getD j 0, if j = idx then 1 else 0⟩

/-- The raw result of forward.py `_dual_forward`: one call's result for a
univariate input, or the list of per-pass results for a multivariate one. -/
inductive DFRes where
  | uni (r : BRes)
  | multi (rs : List BRes)
  deriving DecidableEq, Repr

/-- forward.py `_dual_forward`: length check, then either a single call on
`Dual(input)` seeds or one call per basis-vector pass. -/
def dualForward (P : Prims) (F : PyFunc) (ins : Inputs) : Except PyErr DFRes :=
  let xs := ins.toL
  if xs.length ≠ F.n_inputs then .error .dimensionMismatch
  else if xs.length = 1 then do
    .ok (.uni (← evalBodyD P F.body (seedsUni xs)))
  else do
    .ok (.multi (← (List.range xs.length).mapM
      fun idx => evalBodyD P F.body (oneHot xs idx)))

/-- `elem.real` for a forward-mode value: Python ints/floats expose `.real`
(equal to themselves); a string does not. -/
def getRealD : DVal → Except PyErr ℚ
  | .dl d => .ok d.real
  | .num q => .ok q
  | .str => .error .attributeError

/-- `elem.dual` for a forward-mode value: only a `Dual` has it. -/
def getDualD : DVal → Except PyErr ℚ
  | .dl d => .ok d.dual
  | _ => .error .attributeError

/-- The result of a public engine operation: scalar, vector, or matrix
(np.asarray of the corresponding nesting). -/
inductive JRes where
  | scalar (q : ℚ)
  | vec (v : List ℚ)
  | mat (m : List (List ℚ))
  deriving DecidableEq, Repr

/-- `np.asarray(rows).T` for a rectangular list of rows (numpy transpose):
column `j` of the input becomes row `j` of the output. -/
def transposeT (m : List (List ℚ)) : List (List ℚ) :=
  (List.range (m.headD []).length).map fun j => m.map fun row => row.getD j 0

/-- forward.py `Forward.get_value`: run `_dual_forward`, then strip value
components, dispatching on `isinstance(result, Dual)` (univariate) or
`isinstance(result[0], Dual)` (multivariate) exactly as the code does.
Iterating a number raises `TypeError`; `.real` on a string's characters
raises `AttributeError`; `result[0]` of an empty result raises
`IndexError`. -/
def getValueF (P : Prims) (F : PyFunc) (ins : Inputs) : Except PyErr JRes := do
  match ← dualForward P F ins with
  | .uni (.one (.dl d)) => .ok (.scalar d.real)
  | .uni (.one (.num _)) => .error .typeError
  | .uni (.one .str) => .error .attributeError
  | .uni (.many vs) => do .ok (.vec (← vs.mapM getRealD))
  | .multi [] => .error .indexError
  | .multi (r0 :: rs) =>
    match r0 with
    | .one (.dl _) => do
        let vals ← (r0 :: rs).mapM fun r =>
          match r with
          | .one v => getRealD v
          | .many _ => .error .attributeError
        .ok (.scalar (vals.headD 0))
    | .one (.num _) => .error .typeError
    | .one .str => .error .attributeError
    | .many _ => do
        let rows ← (r0 :: rs).mapM fun r =>
          match r with
          | .many vs => vs.mapM getRealD
          | .one _ => .error .typeError
        .ok (.vec (rows.headD []))

/-- forward.py `Forward.forward`: run `_dual_forward`, then read derivative
components; the multivariate multi-output case transposes the per-pass rows
(`np.asarray(...).T`). -/
def forwardDeriv (P : Prims) (F : PyFunc) (ins : Inputs) : Except PyErr JRes := do
  match ← dualForward P F ins with
  | .uni (.one (.dl d)) => .ok (.scalar d.dual)
  | .uni (.one (.num _)) => .error .typeError
  | .uni (.one .str) => .error .attributeError
  | .uni (.many vs) => do .ok (.vec (← vs.mapM getDualD))
  | .multi [] => .error .indexError
  | .multi (r0 :: rs) =>
    match r0 with
    | .one (.dl _) => do
        let vals ← (r0 :: rs).mapM fun r =>
          match r with
          | .one v => getDualD v
          | .many _ => .error .attributeError
        .ok (.vec vals)
    | .one (.num _) => .error .typeError
    | .one .str => .error .attributeError
    | .many _ => do
        let rows ← (r0 :: rs).mapM fun r =>
          match r with
          | .many vs => vs.mapM getDualD
          | .one _ => .error .typeError
        .ok (.mat (transposeT rows))

/-! ## Reverse engine (reverse.py) -/

/-- reverse.py: `nodes = np.asarray([Node(input) for input in inputs])` —
the seed nodes occupy arena indices `0 .. N-1`. -/
def seedArena (xs : List ℚ) : Arena := xs.map fun x => ⟨x, []⟩

/-- The result of one call of the user function in reverse mode. -/
inductive NBRes where
  | one (v : NVal)
  | many (vs : List NVal)
  deriving DecidableEq, Repr

/-- Evaluate a list of output expressions left to right against one shared
arena (what a single call of a multi-output user function does). -/
def evalListN (P : Prims) (env : List Nat) :
    List Expr → Arena → Except PyErr (Arena × List NVal)
  | [], s => .ok (s, [])
  | e :: rest, s => do
      let (s1, v) ← nevalE P env e s
      let (s2, vs) ← evalListN P env rest s1
      .ok (s2, v :: vs)

/-- Calling the user function on reverse-mode seed nodes. -/
def evalBodyN (P : Prims) (b : Body) (env : List Nat) (s : Arena) :
    Except PyErr (Arena × NBRes) :=
  match b with
  | .single e => do
      let (s1, v) ← nevalE P env e s
      .ok (s1, .one v)
  | .multiList es => do
      let (s1, vs) ← evalListN P env es s
      .ok (s1, .many vs)
  | .multiOpaque es => do
      let (s1, vs) ← evalListN P env es s
      .ok (s1, .many vs)

/-- reverse.py `Reverse._gradiant`'s inner `_calc_grad`, with an explicit
recursion budget (`fuel`).  The Python recursion has no cycle guard; on the
acyclic graphs the library builds, a budget of one unit per arena node is
enough (edges only point to later-created nodes), so the budgeted function
computes exactly what `_calc_grad` computes.  The fold is the
`for child, partial_deriv in root.partial_derivs` loop: accumulate `st * pd`
into the child's entry, recurse into the child, move to the next edge. -/
def calcGradF : Nat → Arena → (Nat → ℚ) → Nat → ℚ → (Nat → ℚ)
  | 0, _, g, _, _ => g
  | fuel + 1, s, g, i, st =>
      (get' s i).partial_derivs.foldl
        (fun h p =>
          calcGradF fuel s
            (fun n => if n = p.1 then h p.1 + st * p.2 else h n) p.1
            (st * p.2))
        g

/-- The edge loop of `_calc_grad` (the fold in `calcGradF`), named for the
proofs. -/
def visitEdges (fuel : Nat) (s : Arena) (g : Nat → ℚ) (st : ℚ)
    (l : List (Nat × ℚ)) : Nat → ℚ :=
  l.foldl
    (fun h p =>
      calcGradF fuel s (fun n => if n = p.1 then h p.1 + st * p.2 else h n)
        p.1 (st * p.2))
    g

theorem calcGradF_zero (s : Arena) (g : Nat → ℚ) (i : Nat) (st : ℚ) :
    calcGradF 0 s g i st = g := rfl

theorem calcGradF_succ (fuel : Nat) (s : Arena) (g : Nat → ℚ) (i : Nat)
    (st : ℚ) :
    calcGradF (fuel + 1) s g i st =
      visitEdges fuel s g st (get' s i).partial_derivs := rfl

theorem visitEdges_nil (fuel : Nat) (s : Arena) (g : Nat → ℚ) (st : ℚ) :
    visitEdges fuel s g st [] = g := rfl

theorem visitEdges_cons (fuel : Nat) (s : Arena) (g : Nat → ℚ) (st : ℚ)
    (c : Nat) (pd : ℚ) (rest : List (Nat × ℚ)) :
    visitEdges fuel s g st ((c, pd) :: rest) =
      visitEdges fuel s
        (calcGradF fuel s (fun n => if n = c then g c + st * pd else g n) c
          (st * pd))
        st rest := rfl

/-- reverse.py `Reverse._gradiant`: accumulated gradients default to 0
(`defaultdict(lambda: 0)`), the traversal starts at `root` with weight 1. -/
def gradiant (s : Arena) (root : Nat) : Nat → ℚ :=
  calcGradF s.length s (fun _ => 0) root 1

/-- reverse.py `Reverse.get_value`. -/
def getValueR (P : Prims) (F : PyFunc) (ins : Inputs) : Except PyErr JRes :=
  let xs := ins.toL
  if xs.length ≠ F.n_inputs then .error .dimensionMismatch
  else do
    let (s1, r) ← evalBodyN P F.body (List.range xs.length) (seedArena xs)
    match r with
    | .one (.node i) => .ok (.scalar (get' s1 i).real)
    | .one (.num _) => .error .typeError
    | .one .str => .error .attributeError
    | .many vs => do
        .ok (.vec (← vs.mapM fun v =>
          match v with
          | .node i => .ok (get' s1 i).real
          | .num q => .ok q
          | .str => .error .attributeError))

/-- `self._gradiant(elem)[res]`: look the evaluation result up in a gradient
dictionary.  A non-node result (e.g. a constant output expression) is a key
the defaultdict has never seen, so the entry is 0. -/
def gradEntry (g : Nat → ℚ) : NVal → ℚ
  | .node c => g c
  | _ => 0

/-- The body of reverse.py's multi-output `try:` block: per output
expression, re-evaluate it against a private deep copy of the graph built so
far (`copy.deepcopy(nodes)` copies the seed nodes and everything reachable,
i.e. the whole arena `s1`), then read one gradient per input node.  For a
`multiOpaque` body the source extraction `re.findall(...)[-1]` finds no
bracketed-list return and raises `IndexError`; for a `single` body,
`len(result)` on a number raises `TypeError`. -/
def reverseMultiInner (P : Prims) (b : Body) (s1 : Arena) (n : Nat) :
    Except PyErr JRes :=
  match b with
  | .single _ => .error .typeError
  | .multiOpaque _ => .error .indexError
  | .multiList es => do
      let rows ← es.mapM fun e => do
        let (sk, v) ← nevalE P (List.range n) e s1
        .ok ((List.range n).map fun i => gradEntry (gradiant sk i) v)
      if n = 1 then .ok (.vec (rows.map fun r => r.headD 0))
      else .ok (.mat rows)

/-- reverse.py's `try: ... except: raise ValueError(err_msg)` around the
whole multi-output path: any exception inside becomes the single
authoring-criteria `ValueError`. -/
def reverseMultiPath (P : Prims) (b : Body) (s1 : Arena) (n : Nat) :
    Except PyErr JRes :=
  match reverseMultiInner P b s1 n with
  | .error _ => .error .multiOutputParseFailure
  | .ok r => .ok r

/-- reverse.py `Reverse.reverse`: length check; evaluate the function once on
seed nodes (outside the `try:`); a single `Node` result is differentiated on
that graph (one `_gradiant` run per input), anything else enters the
multi-output path. -/
def reverseDeriv (P : Prims) (F : PyFunc) (ins : Inputs) : Except PyErr JRes :=
  let xs := ins.toL
  if xs.length ≠ F.n_inputs then .error .dimensionMismatch
  else do
    let (s1, r) ← evalBodyN P F.body (List.range xs.length) (seedArena xs)
    match r with
    | .one (.node c) =>
        if xs.length = 1 then .ok (.scalar (gradiant s1 0 c))
        else .ok (.vec ((List.range xs.length).map fun i => gradiant s1 i c))
    | .one _ => reverseMultiPath P F.body s1 xs.length
    | .many _ => reverseMultiPath P F.body s1 xs.length

/-! ## The claim-side path sum (claim C3)

`pathSumF fuel s i n` is the sum, over the directed edge-paths of length ≥ 1
from `i` to `n` (explored first-edge first, like the code's DFS), of the
product of the local gradients along the path: a path from `i` to `n` starts
with some edge `(c, pd)` of `i` and either stops there (if `c = n`) or
continues from `c`; its product is `pd` times the product of the rest.  The
budget caps the path length; on a forward-pointing graph, `s.length` covers
every path. -/

def pathSumF : Nat → Arena → Nat → Nat → ℚ
  | 0, _, _, _ => 0
  | fuel + 1, s, i, n =>
      ((get' s i).partial_derivs.map
        (fun p => p.2 * ((if p.1 = n then 1 else 0) + pathSumF fuel s p.1 n))).sum

/-- Sum of the path products contributed through each first edge. -/
def sumEdges (fuel : Nat) (s : Arena) (n : Nat) (l : List (Nat × ℚ)) : ℚ :=
  (l.map
    (fun p => p.2 * ((if p.1 = n then 1 else 0) + pathSumF fuel s p.1 n))).sum

theorem pathSumF_zero (s : Arena) (i n : Nat) : pathSumF 0 s i n = 0 := rfl

theorem pathSumF_succ (fuel : Nat) (s : Arena) (i n : Nat) :
    pathSumF (fuel + 1) s i n =
      sumEdges fuel s n (get' s i).partial_derivs := rfl

theorem sumEdges_nil (fuel : Nat) (s : Arena) (n : Nat) :
    sumEdges fuel s n [] = 0 := rfl

theorem sumEdges_cons (fuel : Nat) (s : Arena) (n c : Nat) (pd : ℚ)
    (rest : List (Nat × ℚ)) :
    sumEdges fuel s n ((c, pd) :: rest) =
      pd * ((if c = n then 1 else 0) + pathSumF fuel s c n) +
        sumEdges fuel s n rest := by
  simp only [sumEdges, List.map_cons, List.sum_cons]

/-! ## Graph well-formedness and reachability -/

/-- Edges only point forward: every recorded edge of every node leads to a
node created later (larger index) and inside the arena.  This is the
spec's graph invariant in arena form. -/
def WFedge (s : Arena) : Prop :=
  ∀ i p, p ∈ (get' s i).partial_derivs → i < p.1 ∧ p.1 < s.length

/-- Decidable check of `WFedge` (out-of-range indices have no edges). -/
def WFb (s : Arena) : Bool :=
  (List.range s.length).all fun i =>
    (get' s i).partial_derivs.all fun p =>
      decide (i < p.1) && decide (p.1 < s.length)

theorem get'_oob {s : Arena} {i : Nat} (h : s.length ≤ i) :
    get' s i = ⟨0, []⟩ :=
  List.getD_eq_default _ _ h

theorem WFb_iff_WFedge (s : Arena) : WFb s = true ↔ WFedge s := by
  constructor
  · intro h i p hp
    rcases Nat.lt_or_ge i s.length with hi | hi
    · have h1 := (List.all_eq_true.mp h i (List.mem_range.mpr hi))
      have h2 := List.all_eq_true.mp h1 p hp
      simp only [Bool.and_eq_true, decide_eq_true_eq] at h2
      exact h2
    · rw [get'_oob hi] at hp
      simp at hp
  · intro h
    refine List.all_eq_true.mpr fun i _ => List.all_eq_true.mpr fun p hp => ?_
    have := h i p hp
    simp [this.1, this.2]

/-- There is a directed edge-path of length ≥ 1 from `i` to `j`. -/
inductive NReach (s : Arena) : Nat → Nat → Prop where
  | edge {i c w} : (c, w) ∈ (get' s i).partial_derivs → NReach s i c
  | tail {i j c w} : NReach s i j → (c, w) ∈ (get' s j).partial_derivs →
      NReach s i c

theorem NReach.lt_of_WFedge {s : Arena} (h : WFedge s) {i j : Nat} :
    NReach s i j → i < j := by
  intro hr
  induction hr with
  | edge hm => exact (h _ _ hm).1
  | tail _ hm ih => exact ih.trans (h _ _ hm).1

/-- A forward-pointing graph has no directed cycles. -/
theorem WFedge.acyclic {s : Arena} (h : WFedge s) (i : Nat) :
    ¬ NReach s i i := fun hr => absurd (hr.lt_of_WFedge h) (Nat.lt_irrefl i)

/-! ### Arena update lemmas -/

theorem length_appendEdge (s : Arena) (i : Nat) (e : Nat × ℚ) :
    (appendEdge s i e).length = s.length := by
  induction s generalizing i with
  | nil => rfl
  | cons n rest ih =>
    cases i with
    | zero => rfl
    | succ i => simpa [appendEdge] using ih i

theorem real_appendEdge (s : Arena) (i : Nat) (e : Nat × ℚ) (j : Nat) :
    (get' (appendEdge s i e) j).real = (get' s j).real := by
  induction s generalizing i j with
  | nil => rfl
  | cons n rest ih =>
    cases i with
    | zero =>
      cases j with
      | zero => rfl
      | succ j => rfl
    | succ i =>
      cases j with
      | zero => rfl
      | succ j => simpa [appendEdge, get', List.getD] using ih i j

theorem edges_appendEdge (s : Arena) (i : Nat) (e : Nat × ℚ) (j : Nat) :
    (get' (appendEdge s i e) j).partial_derivs =
      (get' s j).partial_derivs ++
        (if j = i ∧ i < s.length then [e] else []) := by
  induction s generalizing i j with
  | nil => simp [appendEdge, get']
  | cons n rest ih =>
    cases i with
    | zero =>
      cases j with
      | zero => simp [appendEdge, get']
      | succ j => simp [appendEdge, get', List.getD]
    | succ i =>
      cases j with
      | zero => simp [appendEdge, get', List.getD]
      | succ j =>
        have := ih i j
        simp only [appendEdge, get', List.getD] at this ⊢
        simpa [Nat.succ_lt_succ_iff] using this

theorem get'_append_lt {s t : Arena} {j : Nat} (h : j < s.length) :
    get' (s ++ t) j = get' s j := by
  simp [get', List.getD, List.getElem?_append_left h]

theorem get'_append_len (s : Arena) (n : Node) :
    get' (s ++ [n]) s.length = n := by
  simp [get', List.getD, List.getElem?_append_right (Nat.le_refl s.length)]

/-! ### What one child-creating operation does to the arena -/

theorem foldl_appendEdge_length (L : Nat) (ps : List (Nat × ℚ)) (t : Arena) :
    (ps.foldl (fun u p => appendEdge u p.1 (L, p.2)) t).length = t.length := by
  induction ps generalizing t with
  | nil => rfl
  | cons p ps ih => simpa [List.foldl_cons, length_appendEdge] using
      (ih (appendEdge t p.1 (L, p.2))).trans (length_appendEdge t p.1 (L, p.2))

theorem foldl_appendEdge_real (L : Nat) (ps : List (Nat × ℚ)) (t : Arena)
    (j : Nat) :
    (get' (ps.foldl (fun u p => appendEdge u p.1 (L, p.2)) t) j).real =
      (get' t j).real := by
  induction ps generalizing t with
  | nil => rfl
  | cons p ps ih =>
    simpa [List.foldl_cons, real_appendEdge] using
      (ih (appendEdge t p.1 (L, p.2))).trans (real_appendEdge t p.1 (L, p.2) j)

theorem foldl_appendEdge_edges (L : Nat) (ps : List (Nat × ℚ)) (t : Arena)
    (j : Nat) :
    ∃ es, (get' (ps.foldl (fun u p => appendEdge u p.1 (L, p.2)) t) j).partial_derivs
        = (get' t j).partial_derivs ++ es ∧ ∀ p ∈ es, p.1 = L := by
  induction ps generalizing t with
  | nil => exact ⟨[], by simp⟩
  | cons p ps ih =>
    obtain ⟨es, hes, hL⟩ := ih (appendEdge t p.1 (L, p.2))
    refine ⟨(if j = p.1 ∧ p.1 < t.length then [(L, p.2)] else []) ++ es, ?_, ?_⟩
    · rw [List.foldl_cons, hes, edges_appendEdge, List.append_assoc]
    · intro q hq
      rcases List.mem_append.mp hq with hq | hq
      · split at hq
        · rw [List.mem_singleton.mp hq]
        · simp at hq
      · exact hL q hq

theorem pushChild_snd (s : Arena) (ps : List (Nat × ℚ)) (v : ℚ) :
    (pushChild s ps v).2 = s.length := rfl

theorem pushChild_length (s : Arena) (ps : List (Nat × ℚ)) (v : ℚ) :
    (pushChild s ps v).1.length = s.length + 1 := by
  simp [pushChild, foldl_appendEdge_length]

theorem pushChild_real (s : Arena) (ps : List (Nat × ℚ)) (v : ℚ) {j : Nat}
    (hj : j < s.length) :
    (get' (pushChild s ps v).1 j).real = (get' s j).real := by
  have hlen : j < (ps.foldl (fun u p => appendEdge u p.1 (s.length, p.2)) s).length := by
    rwa [foldl_appendEdge_length]
  rw [pushChild, get'_append_lt hlen, foldl_appendEdge_real]

theorem pushChild_edges (s : Arena) (ps : List (Nat × ℚ)) (v : ℚ) {j : Nat}
    (hj : j < s.length) :
    ∃ es, (get' (pushChild s ps v).1 j).partial_derivs =
        (get' s j).partial_derivs ++ es ∧ ∀ p ∈ es, p.1 = s.length := by
  have hlen : j < (ps.foldl (fun u p => appendEdge u p.1 (s.length, p.2)) s).length := by
    rwa [foldl_appendEdge_length]
  rw [pushChild, get'_append_lt hlen]
  exact foldl_appendEdge_edges s.length ps s j

theorem pushChild_child (s : Arena) (ps : List (Nat × ℚ)) (v : ℚ) :
    get' (pushChild s ps v).1 s.length = ⟨v, []⟩ := by
  have h := get'_append_len (ps.foldl (fun u p => appendEdge u p.1 (s.length, p.2)) s) ⟨v, []⟩
  rwa [foldl_appendEdge_length] at h

theorem pushChild_WFedge {s : Arena} (ps : List (Nat × ℚ)) (v : ℚ)
    (h : WFedge s) : WFedge (pushChild s ps v).1 := by
  intro i p hp
  rcases Nat.lt_trichotomy i s.length with hi | hi | hi
  · obtain ⟨es, hes, hL⟩ := pushChild_edges s ps v hi
    rw [hes] at hp
    rw [pushChild_length]
    rcases List.mem_append.mp hp with hp | hp
    · exact ⟨(h i p hp).1, (h i p hp).2.trans (Nat.lt_succ_self _)⟩
    · rw [hL p hp]
      exact ⟨hi, Nat.lt_succ_self _⟩
  · subst hi
    rw [pushChild_child] at hp
    simp at hp
  · rw [get'_oob (by rw [pushChild_length]; omega)] at hp
    simp at hp

/-! ## The Node operations as one family (claim C7) -/

/-- Every node.py operator application and every elem_func.py call on a
`Node` operand, with its operand indices and scalar parameters. -/
inductive NodeOp where
  | negO (i : Nat)
  | addO (i j : Nat)
  | addSO (i : Nat) (k : ℚ)
  | raddO (k : ℚ) (i : Nat)
  | subO (i j : Nat)
  | subSO (i : Nat) (k : ℚ)
  | rsubO (k : ℚ) (i : Nat)
  | mulO (i j : Nat)
  | mulSO (i : Nat) (k : ℚ)
  | rmulO (k : ℚ) (i : Nat)
  | divO (i j : Nat)
  | divSO (i : Nat) (k : ℚ)
  | rdivO (k : ℚ) (i : Nat)
  | powO (i j : Nat)
  | powSO (i : Nat) (k : ℚ)
  | rpowO (k : ℚ) (i : Nat)
  | elemO (e : ElemFn) (i : Nat)
  deriving DecidableEq, Repr

/-- Run a node operation on the arena (`__radd__` and `__rmul__` delegate to
`__add__` / `__mul__` in node.py). -/
def applyNodeOp (P : Prims) : NodeOp → Arena → Arena × Nat
  | .negO i, s => Node.neg s i
  | .addO i j, s => Node.add s i j
  | .addSO i k, s => Node.addS s i k
  | .raddO k i, s => Node.addS s i k
  | .subO i j, s => Node.sub s i j
  | .subSO i k, s => Node.subS s i k
  | .rsubO k i, s => Node.rsub s k i
  | .mulO i j, s => Node.mul s i j
  | .mulSO i k, s => Node.mulS s i k
  | .rmulO k i, s => Node.mulS s i k
  | .divO i j, s => Node.div s i j
  | .divSO i k, s => Node.divS s i k
  | .rdivO k i, s => Node.rdiv s k i
  | .powO i j, s => Node.pow P s i j
  | .powSO i k, s => Node.powS P s i k
  | .rpowO k i, s => Node.rpow P s k i
  | .elemO e i, s => elemNode P e s i

/-- The node operands of an operation. -/
def NodeOp.operands : NodeOp → List Nat
  | .negO i => [i]
  | .addO i j => [i, j]
  | .addSO i _ => [i]
  | .raddO _ i => [i]
  | .subO i j => [i, j]
  | .subSO i _ => [i]
  | .rsubO _ i => [i]
  | .mulO i j => [i, j]
  | .mulSO i _ => [i]
  | .rmulO _ i => [i]
  | .divO i j => [i, j]
  | .divSO i _ => [i]
  | .rdivO _ i => [i]
  | .powO i j => [i, j]
  | .powSO i _ => [i]
  | .rpowO _ i => [i]
  | .elemO _ i => [i]

theorem applyNodeOp_eq_pushChild (P : Prims) (op : NodeOp) (s : Arena) :
    ∃ ps v, applyNodeOp P op s = pushChild s ps v := by
  cases op <;> exact ⟨_, _, rfl⟩

/-! ## Syntactic conditions on bodies -/

/-- The expression contains no non-numeric atom, so evaluating it raises no
`TypeError`. -/
def noBad : Expr → Bool
  | .const _ => true
  | .var _ => true
  | .strAtom => false
  | .neg a => noBad a
  | .add a b => noBad a && noBad b
  | .sub a b => noBad a && noBad b
  | .mul a b => noBad a && noBad b
  | .div a b => noBad a && noBad b
  | .pow a b => noBad a && noBad b
  | .elem _ a => noBad a

/-- The expression evaluates to a `Dual` / `Node` rather than a raw number:
it mentions at least one function parameter (a constant subexpression stays
a raw Python number through every operator and library call). -/
def isDualV : Expr → Bool
  | .const _ => false
  | .var _ => true
  | .strAtom => false
  | .neg a => isDualV a
  | .add a b => isDualV a || isDualV b
  | .sub a b => isDualV a || isDualV b
  | .mul a b => isDualV a || isDualV b
  | .div a b => isDualV a || isDualV b
  | .pow a b => isDualV a || isDualV b
  | .elem _ a => isDualV a

/-- A well-formed output expression for the differentiable-function
contract: no bad atoms, and the result is an engine number. -/
def okOut (e : Expr) : Bool := noBad e && isDualV e

/-- On a `TypeError`-free expression, forward-mode evaluation succeeds, and
the result kind is determined by `isDualV`. -/
theorem devalE_total (P : Prims) (env : List Dual) (e : Expr)
    (h : noBad e = true) :
    (isDualV e = true ∧ ∃ d, devalE P env e = .ok (.dl d)) ∨
    (isDualV e = false ∧ ∃ q, devalE P env e = .ok (.num q)) := by
  induction e with
  | const q => exact .inr ⟨rfl, q, rfl⟩
  | var i => exact .inl ⟨rfl, _, rfl⟩
  | strAtom => simp [noBad] at h
  | neg a ih =>
    rcases ih (by simpa [noBad] using h) with ⟨ha, d, hd⟩ | ⟨ha, q, hq⟩
    · exact .inl ⟨by simpa [isDualV] using ha, _, by simp [devalE, Bind.bind, Except.bind, hd, dNegV]; rfl⟩
    · exact .inr ⟨by simpa [isDualV] using ha, _, by simp [devalE, Bind.bind, Except.bind, hq, dNegV]; rfl⟩
  | add a b iha ihb =>
    rw [noBad, Bool.and_eq_true] at h
    rcases iha h.1 with ⟨ha, d, hd⟩ | ⟨ha, q, hq⟩ <;>
      rcases ihb h.2 with ⟨hb, d2, hd2⟩ | ⟨hb, q2, hq2⟩
    · exact .inl ⟨by simp [isDualV, ha], _, by simp [devalE, Bind.bind, Except.bind, hd, hd2, dAddV]; rfl⟩
    · exact .inl ⟨by simp [isDualV, ha], _, by simp [devalE, Bind.bind, Except.bind, hd, hq2, dAddV]; rfl⟩
    · exact .inl ⟨by simp [isDualV, hb], _, by simp [devalE, Bind.bind, Except.bind, hq, hd2, dAddV]; rfl⟩
    · exact .inr ⟨by simp [isDualV, ha, hb], _, by simp [devalE, Bind.bind, Except.bind, hq, hq2, dAddV]; rfl⟩
  | sub a b iha ihb =>
    rw [noBad, Bool.and_eq_true] at h
    rcases iha h.1 with ⟨ha, d, hd⟩ | ⟨ha, q, hq⟩ <;>
      rcases ihb h.2 with ⟨hb, d2, hd2⟩ | ⟨hb, q2, hq2⟩
    · exact .inl ⟨by simp [isDualV, ha], _, by simp [devalE, Bind.bind, Except.bind, hd, hd2, dSubV]; rfl⟩
    · exact .inl ⟨by simp [isDualV, ha], _, by simp [devalE, Bind.bind, Except.bind, hd, hq2, dSubV]; rfl⟩
    · exact .inl ⟨by simp [isDualV, hb], _, by simp [devalE, Bind.bind, Except.bind, hq, hd2, dSubV]; rfl⟩
    · exact .inr ⟨by simp [isDualV, ha, hb], _, by simp [devalE, Bind.bind, Except.bind, hq, hq2, dSubV]; rfl⟩
  | mul a b iha ihb =>
    rw [noBad, Bool.and_eq_true] at h
    rcases iha h.1 with ⟨ha, d, hd⟩ | ⟨ha, q, hq⟩ <;>
      rcases ihb h.2 with ⟨hb, d2, hd2⟩ | ⟨hb, q2, hq2⟩
    · exact .inl ⟨by simp [isDualV, ha], _, by simp [devalE, Bind.bind, Except.bind, hd, hd2, dMulV]; rfl⟩
    · exact .inl ⟨by simp [isDualV, ha], _, by simp [devalE, Bind.bind, Except.bind, hd, hq2, dMulV]; rfl⟩
    · exact .inl ⟨by simp [isDualV, hb], _, by simp [devalE, Bind.bind, Except.bind, hq, hd2, dMulV]; rfl⟩
    · exact .inr ⟨by simp [isDualV, ha, hb], _, by simp [devalE, Bind.bind, Except.bind, hq, hq2, dMulV]; rfl⟩
  | div a b iha ihb =>
    rw [noBad, Bool.and_eq_true] at h
    rcases iha h.1 with ⟨ha, d, hd⟩ | ⟨ha, q, hq⟩ <;>
      rcases ihb h.2 with ⟨hb, d2, hd2⟩ | ⟨hb, q2, hq2⟩
    · exact .inl ⟨by simp [isDualV, ha], _, by simp [devalE, Bind.bind, Except.bind, hd, hd2, dDivV]; rfl⟩
    · exact .inl ⟨by simp [isDualV, ha], _, by simp [devalE, Bind.bind, Except.bind, hd, hq2, dDivV]; rfl⟩
    · exact .inl ⟨by simp [isDualV, hb], _, by simp [devalE, Bind.bind, Except.bind, hq, hd2, dDivV]; rfl⟩
    · exact .inr ⟨by simp [isDualV, ha, hb], _, by simp [devalE, Bind.bind, Except.bind, hq, hq2, dDivV]; rfl⟩
  | pow a b iha ihb =>
    rw [noBad, Bool.and_eq_true] at h
    rcases iha h.1 with ⟨ha, d, hd⟩ | ⟨ha, q, hq⟩ <;>
      rcases ihb h.2 with ⟨hb, d2, hd2⟩ | ⟨hb, q2, hq2⟩
    · exact .inl ⟨by simp [isDualV, ha], _, by simp [devalE, Bind.bind, Except.bind, hd, hd2, dPowV]; rfl⟩
    · exact .inl ⟨by simp [isDualV, ha], _, by simp [devalE, Bind.bind, Except.bind, hd, hq2, dPowV]; rfl⟩
    · exact .inl ⟨by simp [isDualV, hb], _, by simp [devalE, Bind.bind, Except.bind, hq, hd2, dPowV]; rfl⟩
    · exact .inr ⟨by simp [isDualV, ha, hb], _, by simp [devalE, Bind.bind, Except.bind, hq, hq2, dPowV]; rfl⟩
  | elem f a ih =>
    rcases ih (by simpa [noBad] using h) with ⟨ha, d, hd⟩ | ⟨ha, q, hq⟩
    · exact .inl ⟨by simpa [isDualV] using ha, _, by simp [devalE, Bind.bind, Except.bind, hd, dElemV]; rfl⟩
    · exact .inr ⟨by simpa [isDualV] using ha, _, by simp [devalE, Bind.bind, Except.bind, hq, dElemV]; rfl⟩

/-- On a `TypeError`-free expression, reverse-mode evaluation succeeds from
any arena, and the result kind is determined by `isDualV`. -/
theorem nevalE_total (P : Prims) (env : List Nat) (e : Expr)
    (h : noBad e = true) (s : Arena) :
    (isDualV e = true ∧ ∃ s' c, nevalE P env e s = .ok (s', .node c)) ∨
    (isDualV e = false ∧ ∃ s' q, nevalE P env e s = .ok (s', .num q)) := by
  induction e generalizing s with
  | const q => exact .inr ⟨rfl, s, q, rfl⟩
  | var i => exact .inl ⟨rfl, s, _, rfl⟩
  | strAtom => simp [noBad] at h
  | neg a ih =>
    rcases ih (by simpa [noBad] using h) s with ⟨ha, s', c, hc⟩ | ⟨ha, s', q, hq⟩
    · exact .inl ⟨by simpa [isDualV] using ha, _, _, by simp [nevalE, Bind.bind, Except.bind, hc, nNegV]; exact ⟨rfl, rfl⟩⟩
    · exact .inr ⟨by simpa [isDualV] using ha, _, _, by simp [nevalE, Bind.bind, Except.bind, hq, nNegV]; exact ⟨rfl, rfl⟩⟩
  | add a b iha ihb =>
    rw [noBad, Bool.and_eq_true] at h
    rcases iha h.1 s with ⟨ha, s1, c, hc⟩ | ⟨ha, s1, q, hq⟩ <;>
      rcases ihb h.2 s1 with ⟨hb, s2, c2, hc2⟩ | ⟨hb, s2, q2, hq2⟩
    · exact .inl ⟨by simp [isDualV, ha], _, _, by simp [nevalE, Bind.bind, Except.bind, hc, hc2, nAddV]; exact ⟨rfl, rfl⟩⟩
    · exact .inl ⟨by simp [isDualV, ha], _, _, by simp [nevalE, Bind.bind, Except.bind, hc, hq2, nAddV]; exact ⟨rfl, rfl⟩⟩
    · exact .inl ⟨by simp [isDualV, hb], _, _, by simp [nevalE, Bind.bind, Except.bind, hq, hc2, nAddV]; exact ⟨rfl, rfl⟩⟩
    · exact .inr ⟨by simp [isDualV, ha, hb], _, _, by simp [nevalE, Bind.bind, Except.bind, hq, hq2, nAddV]; exact ⟨rfl, rfl⟩⟩
  | sub a b iha ihb =>
    rw [noBad, Bool.and_eq_true] at h
    rcases iha h.1 s with ⟨ha, s1, c, hc⟩ | ⟨ha, s1, q, hq⟩ <;>
      rcases ihb h.2 s1 with ⟨hb, s2, c2, hc2⟩ | ⟨hb, s2, q2, hq2⟩
    · exact .inl ⟨by simp [isDualV, ha], _, _, by simp [nevalE, Bind.bind, Except.bind, hc, hc2, nSubV]; exact ⟨rfl, rfl⟩⟩
    · exact .inl ⟨by simp [isDualV, ha], _, _, by simp [nevalE, Bind.bind, Except.bind, hc, hq2, nSubV]; exact ⟨rfl, rfl⟩⟩
    · exact .inl ⟨by simp [isDualV, hb], _, _, by simp [nevalE, Bind.bind, Except.bind, hq, hc2, nSubV]; exact ⟨rfl, rfl⟩⟩
    · exact .inr ⟨by simp [isDualV, ha, hb], _, _, by simp [nevalE, Bind.bind, Except.bind, hq, hq2, nSubV]; exact ⟨rfl, rfl⟩⟩
  | mul a b iha ihb =>
    rw [noBad, Bool.and_eq_true] at h
    rcases iha h.1 s with ⟨ha, s1, c, hc⟩ | ⟨ha, s1, q, hq⟩ <;>
      rcases ihb h.2 s1 with ⟨hb, s2, c2, hc2⟩ | ⟨hb, s2, q2, hq2⟩
    · exact .inl ⟨by simp [isDualV, ha], _, _, by simp [nevalE, Bind.bind, Except.bind, hc, hc2, nMulV]; exact ⟨rfl, rfl⟩⟩
    · exact .inl ⟨by simp [isDualV, ha], _, _, by simp [nevalE, Bind.bind, Except.bind, hc, hq2, nMulV]; exact ⟨rfl, rfl⟩⟩
    · exact .inl ⟨by simp [isDualV, hb], _, _, by simp [nevalE, Bind.bind, Except.bind, hq, hc2, nMulV]; exact ⟨rfl, rfl⟩⟩
    · exact .inr ⟨by simp [isDualV, ha, hb], _, _, by simp [nevalE, Bind.bind, Except.bind, hq, hq2, nMulV]; exact ⟨rfl, rfl⟩⟩
  | div a b iha ihb =>
    rw [noBad, Bool.and_eq_true] at h
    rcases iha h.1 s with ⟨ha, s1, c, hc⟩ | ⟨ha, s1, q, hq⟩ <;>
      rcases ihb h.2 s1 with ⟨hb, s2, c2, hc2⟩ | ⟨hb, s2, q2, hq2⟩
    · exact .inl ⟨by simp [isDualV, ha], _, _, by simp [nevalE, Bind.bind, Except.bind, hc, hc2, nDivV]; exact ⟨rfl, rfl⟩⟩
    · exact .inl ⟨by simp [isDualV, ha], _, _, by simp [nevalE, Bind.bind, Except.bind, hc, hq2, nDivV]; exact ⟨rfl, rfl⟩⟩
    · exact .inl ⟨by simp [isDualV, hb], _, _, by simp [nevalE, Bind.bind, Except.bind, hq, hc2, nDivV]; exact ⟨rfl, rfl⟩⟩
    · exact .inr ⟨by simp [isDualV, ha, hb], _, _, by simp [nevalE, Bind.bind, Except.bind, hq, hq2, nDivV]; exact ⟨rfl, rfl⟩⟩
  | pow a b iha ihb =>
    rw [noBad, Bool.and_eq_true] at h
    rcases iha h.1 s with ⟨ha, s1, c, hc⟩ | ⟨ha, s1, q, hq⟩ <;>
      rcases ihb h.2 s1 with ⟨hb, s2, c2, hc2⟩ | ⟨hb, s2, q2, hq2⟩
    · exact .inl ⟨by simp [isDualV, ha], _, _, by simp [nevalE, Bind.bind, Except.bind, hc, hc2, nPowV]; exact ⟨rfl, rfl⟩⟩
    · exact .inl ⟨by simp [isDualV, ha], _, _, by simp [nevalE, Bind.bind, Except.bind, hc, hq2, nPowV]; exact ⟨rfl, rfl⟩⟩
    · exact .inl ⟨by simp [isDualV, hb], _, _, by simp [nevalE, Bind.bind, Except.bind, hq, hc2, nPowV]; exact ⟨rfl, rfl⟩⟩
    · exact .inr ⟨by simp [isDualV, ha, hb], _, _, by simp [nevalE, Bind.bind, Except.bind, hq, hq2, nPowV]; exact ⟨rfl, rfl⟩⟩
  | elem f a ih =>
    rcases ih (by simpa [noBad] using h) s with ⟨ha, s', c, hc⟩ | ⟨ha, s', q, hq⟩
    · exact .inl ⟨by simpa [isDualV] using ha, _, _, by simp [nevalE, Bind.bind, Except.bind, hc, nElemV]; exact ⟨rfl, rfl⟩⟩
    · exact .inr ⟨by simpa [isDualV] using ha, _, _, by simp [nevalE, Bind.bind, Except.bind, hq, nElemV]; exact ⟨rfl, rfl⟩⟩

/-! ## No code path after the arity check builds a dimension mismatch -/

theorem bind_ne {α β : Type} {x : Except PyErr α} {f : α → Except PyErr β}
    {er : PyErr} (hx : x ≠ .error er) (hf : ∀ a, f a ≠ .error er) :
    (x >>= f) ≠ .error er := by
  cases x with
  | error e => simpa [Bind.bind, Except.bind] using hx
  | ok a => simpa [Bind.bind, Except.bind] using hf a

theorem mapM_ne {α β : Type} {f : α → Except PyErr β} {er : PyErr}
    (l : List α) (hf : ∀ a ∈ l, f a ≠ .error er) :
    l.mapM f ≠ .error er := by
  induction l with
  | nil => simp [List.mapM, List.mapM.loop, pure, Except.pure]
  | cons a l ih =>
    rw [List.mapM_cons]
    refine bind_ne (hf a (List.mem_cons_self a l)) fun b => ?_
    refine bind_ne (ih fun a ha => hf a (List.mem_cons_of_mem _ ha)) fun bs => ?_
    simp [pure, Except.pure]

theorem dNegV_ne_dim (v : DVal) : dNegV v ≠ .error .dimensionMismatch := by
  cases v <;> simp [dNegV]

theorem dAddV_ne_dim (v w : DVal) : dAddV v w ≠ .error .dimensionMismatch := by
  cases v <;> cases w <;> simp [dAddV]

theorem dSubV_ne_dim (v w : DVal) : dSubV v w ≠ .error .dimensionMismatch := by
  cases v <;> cases w <;> simp [dSubV]

theorem dMulV_ne_dim (v w : DVal) : dMulV v w ≠ .error .dimensionMismatch := by
  cases v <;> cases w <;> simp [dMulV]

theorem dDivV_ne_dim (v w : DVal) : dDivV v w ≠ .error .dimensionMismatch := by
  cases v <;> cases w <;> simp [dDivV]

theorem dPowV_ne_dim (P : Prims) (v w : DVal) :
    dPowV P v w ≠ .error .dimensionMismatch := by
  cases v <;> cases w <;> simp [dPowV]

theorem dElemV_ne_dim (P : Prims) (e : ElemFn) (v : DVal) :
    dElemV P e v ≠ .error .dimensionMismatch := by
  cases v <;> simp [dElemV]

theorem devalE_ne_dim (P : Prims) (env : List Dual) (e : Expr) :
    devalE P env e ≠ .error .dimensionMismatch := by
  induction e with
  | const q => simp [devalE]
  | var i => simp [devalE]
  | strAtom => simp [devalE]
  | neg a ih => simp only [devalE]; exact bind_ne ih fun v => dNegV_ne_dim v
  | add a b iha ihb =>
    simp only [devalE]
    exact bind_ne iha fun v => bind_ne ihb fun w => dAddV_ne_dim v w
  | sub a b iha ihb =>
    simp only [devalE]
    exact bind_ne iha fun v => bind_ne ihb fun w => dSubV_ne_dim v w
  | mul a b iha ihb =>
    simp only [devalE]
    exact bind_ne iha fun v => bind_ne ihb fun w => dMulV_ne_dim v w
  | div a b iha ihb =>
    simp only [devalE]
    exact bind_ne iha fun v => bind_ne ihb fun w => dDivV_ne_dim v w
  | pow a b iha ihb =>
    simp only [devalE]
    exact bind_ne iha fun v => bind_ne ihb fun w => dPowV_ne_dim P v w
  | elem f a ih =>
    simp only [devalE]
    exact bind_ne ih fun v => dElemV_ne_dim P f v

theorem nNegV_ne_dim (s : Arena) (v : NVal) :
    nNegV s v ≠ .error .dimensionMismatch := by
  cases v <;> simp [nNegV]

theorem nAddV_ne_dim (s : Arena) (v w : NVal) :
    nAddV s v w ≠ .error .dimensionMismatch := by
  cases v <;> cases w <;> simp [nAddV]

theorem nSubV_ne_dim (s : Arena) (v w : NVal) :
    nSubV s v w ≠ .error .dimensionMismatch := by
  cases v <;> cases w <;> simp [nSubV]

theorem nMulV_ne_dim (s : Arena) (v w : NVal) :
    nMulV s v w ≠ .error .dimensionMismatch := by
  cases v <;> cases w <;> simp [nMulV]

theorem nDivV_ne_dim (s : Arena) (v w : NVal) :
    nDivV s v w ≠ .error .dimensionMismatch := by
  cases v <;> cases w <;> simp [nDivV]

theorem nPowV_ne_dim (P : Prims) (s : Arena) (v w : NVal) :
    nPowV P s v w ≠ .error .dimensionMismatch := by
  cases v <;> cases w <;> simp [nPowV]

theorem nElemV_ne_dim (P : Prims) (e : ElemFn) (s : Arena) (v : NVal) :
    nElemV P e s v ≠ .error .dimensionMismatch := by
  cases v <;> simp [nElemV]

theorem nevalE_ne_dim (P : Prims) (env : List Nat) (e : Expr) (s : Arena) :
    nevalE P env e s ≠ .error .dimensionMismatch := by
  induction e generalizing s with
  | const q => simp [nevalE]
  | var i => simp [nevalE]
  | strAtom => simp [nevalE]
  | neg a ih =>
    simp only [nevalE]
    exact bind_ne (ih s) fun p => nNegV_ne_dim p.1 p.2
  | add a b iha ihb =>
    simp only [nevalE]
    exact bind_ne (iha s) fun p => bind_ne (ihb p.1) fun q => nAddV_ne_dim q.1 p.2 q.2
  | sub a b iha ihb =>
    simp only [nevalE]
    exact bind_ne (iha s) fun p => bind_ne (ihb p.1) fun q => nSubV_ne_dim q.1 p.2 q.2
  | mul a b iha ihb =>
    simp only [nevalE]
    exact bind_ne (iha s) fun p => bind_ne (ihb p.1) fun q => nMulV_ne_dim q.1 p.2 q.2
  | div a b iha ihb =>
    simp only [nevalE]
    exact bind_ne (iha s) fun p => bind_ne (ihb p.1) fun q => nDivV_ne_dim q.1 p.2 q.2
  | pow a b iha ihb =>
    simp only [nevalE]
    exact bind_ne (iha s) fun p => bind_ne (ihb p.1) fun q => nPowV_ne_dim P q.1 p.2 q.2
  | elem f a ih =>
    simp only [nevalE]
    exact bind_ne (ih s) fun p => nElemV_ne_dim P f p.1 p.2

theorem evalBodyD_ne_dim (P : Prims) (b : Body) (env : List Dual) :
    evalBodyD P b env ≠ .error .dimensionMismatch := by
  cases b with
  | single e =>
    simp only [evalBodyD]
    exact bind_ne (devalE_ne_dim P env e) fun v => by simp
  | multiList es =>
    simp only [evalBodyD]
    exact bind_ne (mapM_ne es fun e _ => devalE_ne_dim P env e) fun vs => by simp
  | multiOpaque es =>
    simp only [evalBodyD]
    exact bind_ne (mapM_ne es fun e _ => devalE_ne_dim P env e) fun vs => by simp

theorem evalListN_ne_dim (P : Prims) (env : List Nat) (es : List Expr)
    (s : Arena) : evalListN P env es s ≠ .error .dimensionMismatch := by
  induction es generalizing s with
  | nil => simp [evalListN]
  | cons e es ih =>
    simp only [evalListN]
    exact bind_ne (nevalE_ne_dim P env e s) fun p =>
      bind_ne (ih p.1) fun q => by simp

theorem evalBodyN_ne_dim (P : Prims) (b : Body) (env : List Nat) (s : Arena) :
    evalBodyN P b env s ≠ .error .dimensionMismatch := by
  cases b with
  | single e =>
    simp only [evalBodyN]
    exact bind_ne (nevalE_ne_dim P env e s) fun p => by simp
  | multiList es =>
    simp only [evalBodyN]
    exact bind_ne (evalListN_ne_dim P env es s) fun p => by simp
  | multiOpaque es =>
    simp only [evalBodyN]
    exact bind_ne (evalListN_ne_dim P env es s) fun p => by simp

theorem getRealD_ne_dim (v : DVal) : getRealD v ≠ .error .dimensionMismatch := by
  cases v <;> simp [getRealD]

theorem getDualD_ne_dim (v : DVal) : getDualD v ≠ .error .dimensionMismatch := by
  cases v <;> simp [getDualD]

/-! ## Success lemmas -/

theorem mapM_ok {α β : Type} (f : α → Except PyErr β) (p : β → Prop)
    (l : List α) (h : ∀ a ∈ l, ∃ b, f a = .ok b ∧ p b) :
    ∃ bs, l.mapM f = .ok bs ∧ bs.length = l.length ∧ ∀ b ∈ bs, p b := by
  induction l with
  | nil => exact ⟨[], by simp [List.mapM, List.mapM.loop, pure, Except.pure], rfl, by simp⟩
  | cons a l ih =>
    obtain ⟨b, hb, hpb⟩ := h a (List.mem_cons_self a l)
    obtain ⟨bs, hbs, hlen, hp⟩ := ih fun x hx => h x (List.mem_cons_of_mem _ hx)
    refine ⟨b :: bs, ?_, by simp [hlen], ?_⟩
    · rw [List.mapM_cons, hb, hbs]; rfl
    · intro c hc
      rcases List.mem_cons.mp hc with rfl | hc
      · exact hpb
      · exact hp c hc

theorem evalListN_ok (P : Prims) (env : List Nat) (es : List Expr)
    (h : ∀ e ∈ es, noBad e = true) (s : Arena) :
    ∃ s' vs, evalListN P env es s = .ok (s', vs) ∧ vs.length = es.length ∧
      ∀ v ∈ vs, v ≠ NVal.str := by
  induction es generalizing s with
  | nil => exact ⟨s, [], rfl, rfl, by simp⟩
  | cons e es ih =>
    have hnb := h e (List.mem_cons_self e es)
    have hone :
        ∃ s1 v, nevalE P env e s = .ok (s1, v) ∧ v ≠ NVal.str := by
      rcases nevalE_total P env e hnb s with ⟨_, s1, c, hc⟩ | ⟨_, s1, q, hq⟩
      · exact ⟨s1, .node c, hc, by simp⟩
      · exact ⟨s1, .num q, hq, by simp⟩
    obtain ⟨s1, v, hv, hvstr⟩ := hone
    obtain ⟨s', vs, hes, hlen, hstr⟩ :=
      ih (fun x hx => h x (List.mem_cons_of_mem _ hx)) s1
    refine ⟨s', v :: vs, ?_, by simp [hlen], ?_⟩
    · simp [evalListN, hv, hes, Bind.bind, Except.bind]
    · intro w hw
      rcases List.mem_cons.mp hw with rfl | hw
      · exact hvstr
      · exact hstr w hw

theorem Node.eq_of_fields {n m : Node} (h1 : n.real = m.real)
    (h2 : n.partial_derivs = m.partial_derivs) : n = m := by
  cases n; cases m
  cases h1; cases h2
  rfl

theorem get'_appendEdge_ne (s : Arena) (i : Nat) (e : Nat × ℚ) {j : Nat}
    (h : j ≠ i) : get' (appendEdge s i e) j = get' s j := by
  refine Node.eq_of_fields (real_appendEdge s i e j) ?_
  rw [edges_appendEdge, if_neg (fun hc => h hc.1)]
  simp

theorem map_getD_range (xs : List ℚ) :
    (List.range xs.length).map (fun j => xs.getD j 0) = xs := by
  refine List.ext_getElem (by simp) fun i h1 h2 => ?_
  simp [List.getD_eq_getElem?_getD, List.getElem?_eq_getElem h2]

theorem transposeT_length (m : List (List ℚ)) :
    (transposeT m).length = (m.headD []).length := by
  simp [transposeT]

theorem transposeT_rows (m : List (List ℚ)) :
    ∀ r ∈ transposeT m, r.length = m.length := by
  intro r hr
  simp only [transposeT, List.mem_map] at hr
  obtain ⟨j, _, rfl⟩ := hr
  simp

/-- A concrete primitive record used to instantiate theorems with
hypotheses: `sqrt` is constantly 1 and `powf` is constantly 1, so
`powf y (-1/2) = 1 / sqrt y` holds everywhere; all other primitives are the
identity. -/
def Pid : Prims :=
  ⟨fun x => x, fun x => x, fun x => x, fun x => x, fun _ => 1, fun x => x,
   fun x => x, fun x => x, fun x => x, fun x => x, fun x => x, fun x => x,
   fun _ _ => 1⟩

theorem Pid_pow_sqrt : ∀ y : ℚ, Pid.powf y (-(1 / 2)) = 1 / Pid.sqrt y := by
  intro y
  norm_num [Pid]

/-! ## Claim C1 -/

theorem elemVal_eq_claimVal (P : Prims) (e : ElemFn) (x : ℚ) :
    elemVal P e x = claimVal P e x := by
  cases e <;> rfl

theorem elemDualPart_eq_claimDeriv (P : Prims) (e : ElemFn) (v d : ℚ) :
    elemDualPart P e v d = claimDeriv P e v * d := by
  cases e <;> simp only [elemDualPart, claimDeriv] <;> ring

theorem elemEdge_eq_claimDeriv (P : Prims) (e : ElemFn) (v : ℚ)
    (hpow : ∀ y, P.powf y (-(1 / 2)) = 1 / P.sqrt y) :
    elemEdge P e v = claimDeriv P e v := by
  cases e <;> simp only [elemEdge, claimDeriv, hpow] <;> ring

/-- C1: every library elementary function, on a Dual argument, returns a new
Dual with value `f(z.real)` and derivative `f'(z.real) * z.dual`; on a Node
argument it creates exactly one child with value `f(z.real)`, appends the
single edge `(child, f'(z.real))` to the argument's edge list and returns
the child (whose index is the old arena length); on a raw scalar it returns
the plain closed-form value.  `f` and `f'` are the claim's listed closed
forms (`claimVal`, `claimDeriv`).  The hypothesis records that the external
float primitive `y ** -0.5` agrees with `1 / sqrt y`, which the Node branch
of `sqrt` relies on. -/
theorem c1_elementary_library (P : Prims) (e : ElemFn) (z : Dual) (s : Arena)
    (i : Nat) (x : ℚ)
    (hpow : ∀ y, P.powf y (-(1 / 2)) = 1 / P.sqrt y) :
    elemDual P e z = ⟨claimVal P e z.real, claimDeriv P e z.real * z.dual⟩
    ∧ elemNode P e s i =
        (appendEdge s i (s.length, claimDeriv P e (get' s i).real) ++
          [⟨claimVal P e (get' s i).real, []⟩], s.length)
    ∧ elemScalar P e x = claimVal P e x := by
  refine ⟨?_, ?_, elemVal_eq_claimVal P e x⟩
  · rw [elemDual, elemDualPart_eq_claimDeriv, elemVal_eq_claimVal]
  · rw [elemNode, elemEdge_eq_claimDeriv P e _ hpow, elemVal_eq_claimVal]
    rfl

/-- Witness for C1 at `e = sin`, `z = (2, 3)`, a one-node arena, `x = 7`. -/
theorem c1_elementary_library_witness :
    elemDual Pid .sin ⟨2, 3⟩ =
        ⟨claimVal Pid .sin 2, claimDeriv Pid .sin 2 * 3⟩
    ∧ elemNode Pid .sin [⟨5, []⟩] 0 =
        (appendEdge [⟨5, []⟩] 0 (1, claimDeriv Pid .sin 5) ++
          [⟨claimVal Pid .sin 5, []⟩], 1)
    ∧ elemScalar Pid .sin 7 = claimVal Pid .sin 7 :=
  c1_elementary_library Pid .sin ⟨2, 3⟩ [⟨5, []⟩] 0 7 Pid_pow_sqrt

/-! ## Claim C2 -/

/-- C2: the Dual operator table.  Each operator is the dual.py transcription;
the right-hand sides are the claim's formulas (addition/subtraction
componentwise, scalar contributing derivative 0; product rule; quotient
rule; generalized and scalar power rules). -/
theorem c2_dual_operator_table (P : Prims) (a b : Dual) (k : ℚ) :
    a.add b = ⟨a.real + b.real, a.dual + b.dual⟩
    ∧ a.addS k = ⟨a.real + k, a.dual⟩
    ∧ a.sub b = ⟨a.real - b.real, a.dual - b.dual⟩
    ∧ a.subS k = ⟨a.real - k, a.dual - 0⟩
    ∧ a.mul b = ⟨a.real * b.real, a.real * b.dual + a.dual * b.real⟩
    ∧ a.div b =
        ⟨a.real / b.real, (a.dual * b.real - a.real * b.dual) / b.real ^ 2⟩
    ∧ a.pow P b =
        ⟨P.powf a.real b.real,
         P.powf a.real b.real *
           (P.log a.real * b.dual + b.real * a.dual / a.real)⟩
    ∧ a.powS P k = ⟨P.powf a.real k, k * P.powf a.real (k - 1) * a.dual⟩ := by
  refine ⟨rfl, rfl, rfl, by simp [Dual.subS], rfl, rfl, ?_, ?_⟩
  · simp only [Dual.pow, Dual.mk.injEq, true_and]
    ring_nf
  · simp only [Dual.powS, Dual.mk.injEq, true_and]
    ring

/-! ## Claim C8 -/

/-- C8: for a raw scalar `k` and a node `i`, `k - node` succeeds (Python's
`other.real` on an int/float is the number itself): it creates exactly one
new child node with value `k - node.real`, appends the single edge
`(child, -1)` to the node, returns the child, and touches nothing else. -/
theorem c8_scalar_minus_node (s : Arena) (k : ℚ) (i : Nat)
    (hi : i < s.length) :
    (Node.rsub s k i).2 = s.length
    ∧ (Node.rsub s k i).1.length = s.length + 1
    ∧ get' (Node.rsub s k i).1 s.length = ⟨k - (get' s i).real, []⟩
    ∧ (get' (Node.rsub s k i).1 i).real = (get' s i).real
    ∧ (get' (Node.rsub s k i).1 i).partial_derivs =
        (get' s i).partial_derivs ++ [(s.length, -1)]
    ∧ ∀ j, j < s.length → j ≠ i → get' (Node.rsub s k i).1 j = get' s j := by
  refine ⟨rfl, pushChild_length s _ _, pushChild_child s _ _,
    pushChild_real s _ _ hi, ?_, ?_⟩
  · show (get' (appendEdge s i (s.length, -1) ++ [⟨k - (get' s i).real, []⟩]) i).partial_derivs = _
    rw [get'_append_lt (by rw [length_appendEdge]; exact hi)]
    rw [edges_appendEdge, if_pos ⟨rfl, hi⟩]
  · intro j hj hne
    show get' (appendEdge s i (s.length, -1) ++ [⟨k - (get' s i).real, []⟩]) j = _
    rw [get'_append_lt (by rw [length_appendEdge]; exact hj)]
    exact get'_appendEdge_ne s i _ hne

/-- Witness for C8: `10 - node` on a two-node arena, at node 1. -/
theorem c8_scalar_minus_node_witness :
    (Node.rsub [⟨4, []⟩, ⟨6, []⟩] 10 1).2 = 2
    ∧ (Node.rsub [⟨4, []⟩, ⟨6, []⟩] 10 1).1.length = 2 + 1
    ∧ get' (Node.rsub [⟨4, []⟩, ⟨6, []⟩] 10 1).1 2 =
        ⟨10 - (get' [⟨4, []⟩, ⟨6, []⟩] 1).real, []⟩
    ∧ (get' (Node.rsub [⟨4, []⟩, ⟨6, []⟩] 10 1).1 1).real =
        (get' [⟨4, []⟩, ⟨6, []⟩] 1).real
    ∧ (get' (Node.rsub [⟨4, []⟩, ⟨6, []⟩] 10 1).1 1).partial_derivs =
        (get' [⟨4, []⟩, ⟨6, []⟩] 1).partial_derivs ++ [(2, -1)]
    ∧ ∀ j, j < 2 → j ≠ 1 → get' (Node.rsub [⟨4, []⟩, ⟨6, []⟩] 10 1).1 j =
        get' [⟨4, []⟩, ⟨6, []⟩] j :=
  c8_scalar_minus_node [⟨4, []⟩, ⟨6, []⟩] 10 1 (by decide)

/-! ## Claim C9 -/

/-- C9 counterexample: the claim says the forward engine's value operation
seeds every input with derivative 0.  In forward.py `_dual_forward` (used by
`get_value`), an arity-1 input is seeded `Dual(input)`, whose constructor
default is derivative 1, and that Dual (derivative 1, not 0) is what the
user function receives. -/
theorem c9_seed_counterexample :
    seedsUni [3] = [⟨3, 1⟩]
    ∧ dualForward Pid ⟨1, .single (.var 0)⟩ (.scalarIn 3) =
        .ok (.uni (.one (.dl ⟨3, 1⟩)))
    ∧ (⟨3, 1⟩ : Dual) ≠ ⟨3, 0⟩ := by
  refine ⟨by decide, rfl, by decide⟩

theorem bind_ok_eq_map {α β : Type} (x : Except PyErr α) (f : α → β) :
    (do let r ← x; Except.ok (f r)) = Except.map f x := by
  cases x <;> rfl

/-- C9 amended: in the forward engine's value operation, an arity-1 input is
seeded as `Dual(input)` with the constructor's default derivative 1 before
the user function is called; for arity N > 1 the inputs are constructed with
derivative 0, and each evaluation pass `idx` re-seeds input `idx` to
derivative 1 before calling the user function (one-hot seeds), so only the
initial construction — not the Duals actually passed — carries derivative 0
everywhere. -/
theorem c9_value_seeding_amended (P : Prims) (b : Body) (x : ℚ)
    (xs : List ℚ) (h2 : 2 ≤ xs.length) :
    dualForward P ⟨1, b⟩ (.scalarIn x) =
        Except.map DFRes.uni (evalBodyD P b [⟨x, 1⟩])
    ∧ dualForward P ⟨xs.length, b⟩ (.listIn xs) =
        Except.map DFRes.multi
          ((List.range xs.length).mapM fun idx => evalBodyD P b (oneHot xs idx))
    ∧ ∀ idx, (oneHot xs idx).map Dual.real = xs
        ∧ (oneHot xs idx).map Dual.dual =
            (List.range xs.length).map fun j => if j = idx then 1 else 0 := by
  refine ⟨?_, ?_, ?_⟩
  · simp only [dualForward, Inputs.toL]
    rw [if_neg (by simp), if_pos (by simp)]
    exact bind_ok_eq_map _ _
  · have hne : xs.length ≠ 1 := by omega
    simp only [dualForward, Inputs.toL]
    rw [if_neg (by simp), if_neg hne]
    exact bind_ok_eq_map _ _
  · intro idx
    constructor
    · rw [oneHot, List.map_map]
      exact map_getD_range xs
    · rw [oneHot, List.map_map]
      rfl

/-- Witness for C9's amended statement at `b = single (var 0)`, `x = 3`,
`xs = [1, 2]`. -/
theorem c9_value_seeding_amended_witness :
    dualForward Pid ⟨1, .single (.var 0)⟩ (.scalarIn 3) =
        Except.map DFRes.uni (evalBodyD Pid (.single (.var 0)) [⟨3, 1⟩])
    ∧ dualForward Pid ⟨2, .single (.var 0)⟩ (.listIn [1, 2]) =
        Except.map DFRes.multi
          ((List.range 2).mapM fun idx =>
            evalBodyD Pid (.single (.var 0)) (oneHot [1, 2] idx))
    ∧ ∀ idx, (oneHot [1, 2] idx).map Dual.real = [1, 2]
        ∧ (oneHot [1, 2] idx).map Dual.dual =
            (List.range 2).map fun j => if j = idx then 1 else 0 :=
  c9_value_seeding_amended Pid (.single (.var 0)) 3 [1, 2] (by decide)

/-! ## Claim C10 -/

/-- C10: the whole multi-output path of reverse.py (source extraction,
per-output re-evaluation against a private graph copy, gradient assembly)
sits inside one `try: ... except: raise ValueError(err_msg)`; every
exception raised inside — unsupported-operand `TypeError`s from operators
and library calls on a bad output expression, the `IndexError` of a failed
source extraction, anything else — is replaced by the single
authoring-criteria `ValueError`, so the path either succeeds or fails with
exactly `multiOutputParseFailure`. -/
theorem c10_multi_output_error_containment (P : Prims) (b : Body)
    (s1 : Arena) (n : Nat) :
    ((∃ r, reverseMultiPath P b s1 n = .ok r) ∨
      reverseMultiPath P b s1 n = .error .multiOutputParseFailure)
    ∧ ∀ er, reverseMultiInner P b s1 n = .error er →
        reverseMultiPath P b s1 n = .error .multiOutputParseFailure := by
  constructor
  · unfold reverseMultiPath
    cases reverseMultiInner P b s1 n with
    | ok r => exact .inl ⟨r, rfl⟩
    | error e => exact .inr rfl
  · intro er her
    unfold reverseMultiPath
    rw [her]

/-! ## Claim C7 -/

/-- C7: every Node operation — the sixteen node.py operator variants and
every elem_func.py call on a Node — creates exactly one new node (returned,
at the old arena length), never changes any existing node's value, mutates
existing nodes only by appending edges to their own edge lists, points every
appended edge at the operation's newly created node, gives the new node an
empty edge list, and therefore preserves the forward-pointing-edges
invariant and acyclicity. -/
theorem c7_graph_invariant (P : Prims) (op : NodeOp) (s : Arena)
    (_hvalid : op.operands.all (· < s.length) = true) :
    (applyNodeOp P op s).2 = s.length
    ∧ (applyNodeOp P op s).1.length = s.length + 1
    ∧ (∀ j, j < s.length →
        (get' (applyNodeOp P op s).1 j).real = (get' s j).real)
    ∧ (∀ j, j < s.length →
        ∃ es, (get' (applyNodeOp P op s).1 j).partial_derivs =
            (get' s j).partial_derivs ++ es ∧ ∀ p ∈ es, p.1 = s.length)
    ∧ (get' (applyNodeOp P op s).1 s.length).partial_derivs = []
    ∧ (WFedge s → WFedge (applyNodeOp P op s).1)
    ∧ (WFedge s → ∀ i, ¬ NReach (applyNodeOp P op s).1 i i) := by
  obtain ⟨ps, v, hop⟩ := applyNodeOp_eq_pushChild P op s
  rw [hop]
  refine ⟨pushChild_snd s ps v, pushChild_length s ps v,
    fun j hj => pushChild_real s ps v hj,
    fun j hj => pushChild_edges s ps v hj,
    by rw [pushChild_child], pushChild_WFedge ps v,
    fun hwf i => (pushChild_WFedge ps v hwf).acyclic i⟩

/-- Witness for C7: a multiplication of nodes 0 and 1 on a two-node arena. -/
theorem c7_graph_invariant_witness :
    (applyNodeOp Pid (.mulO 0 1) [⟨2, []⟩, ⟨3, []⟩]).2 = 2
    ∧ (applyNodeOp Pid (.mulO 0 1) [⟨2, []⟩, ⟨3, []⟩]).1.length = 2 + 1
    ∧ (∀ j, j < 2 →
        (get' (applyNodeOp Pid (.mulO 0 1) [⟨2, []⟩, ⟨3, []⟩]).1 j).real =
          (get' [⟨2, []⟩, ⟨3, []⟩] j).real)
    ∧ (∀ j, j < 2 →
        ∃ es, (get' (applyNodeOp Pid (.mulO 0 1) [⟨2, []⟩, ⟨3, []⟩]).1 j).partial_derivs =
            (get' [⟨2, []⟩, ⟨3, []⟩] j).partial_derivs ++ es ∧ ∀ p ∈ es, p.1 = 2)
    ∧ (get' (applyNodeOp Pid (.mulO 0 1) [⟨2, []⟩, ⟨3, []⟩]).1 2).partial_derivs = []
    ∧ (WFedge [⟨2, []⟩, ⟨3, []⟩] →
        WFedge (applyNodeOp Pid (.mulO 0 1) [⟨2, []⟩, ⟨3, []⟩]).1)
    ∧ (WFedge [⟨2, []⟩, ⟨3, []⟩] →
        ∀ i, ¬ NReach (applyNodeOp Pid (.mulO 0 1) [⟨2, []⟩, ⟨3, []⟩]).1 i i) :=
  c7_graph_invariant Pid (.mulO 0 1) [⟨2, []⟩, ⟨3, []⟩] (by decide)

/-! ## Claim C3 -/

theorem visitEdges_pathSum (fuel : Nat) (s : Arena) (n : Nat)
    (IH : ∀ g i st, calcGradF fuel s g i st n = g n + st * pathSumF fuel s i n) :
    ∀ (l : List (Nat × ℚ)) (g : Nat → ℚ) (st : ℚ),
      visitEdges fuel s g st l n = g n + st * sumEdges fuel s n l := by
  intro l
  induction l with
  | nil => intro g st; simp [visitEdges_nil, sumEdges_nil]
  | cons p rest ih =>
    intro g st
    obtain ⟨c, pd⟩ := p
    rw [visitEdges_cons, ih, IH, sumEdges_cons]
    by_cases hnc : n = c
    · subst hnc
      simp
      ring
    · rw [if_neg hnc, if_neg fun h => hnc (Eq.symm h)]
      ring

/-- The accumulate-then-recurse traversal computes, at every node `n`, the
starting entry plus `st` times the path sum from the visited node — with the
same recursion budget on both sides, for any graph. -/
theorem calcGradF_eq_pathSumF :
    ∀ (fuel : Nat) (s : Arena) (g : Nat → ℚ) (i : Nat) (st : ℚ) (n : Nat),
      calcGradF fuel s g i st n = g n + st * pathSumF fuel s i n := by
  intro fuel
  induction fuel with
  | zero => intro s g i st n; simp [calcGradF_zero, pathSumF_zero]
  | succ fuel ih =>
    intro s g i st n
    rw [calcGradF_succ, pathSumF_succ]
    exact visitEdges_pathSum fuel s n (fun g i st => ih s g i st n) _ g st

theorem pathSumF_oob {s : Arena} {i : Nat} (h : s.length ≤ i) (f n : Nat) :
    pathSumF f s i n = 0 := by
  cases f with
  | zero => simp [pathSumF_zero]
  | succ f => simp [pathSumF_succ, get'_oob h, sumEdges_nil]

theorem sumEdges_congr (s : Arena) (n f1 f2 : Nat) :
    ∀ l : List (Nat × ℚ),
      (∀ p ∈ l, pathSumF f1 s p.1 n = pathSumF f2 s p.1 n) →
      sumEdges f1 s n l = sumEdges f2 s n l := by
  intro l
  induction l with
  | nil => intro _; simp [sumEdges_nil]
  | cons p rest ih =>
    intro h
    obtain ⟨c, pd⟩ := p
    have h1 : pathSumF f1 s c n = pathSumF f2 s c n :=
      h (c, pd) (List.mem_cons_self _ _)
    rw [sumEdges_cons, sumEdges_cons, h1,
      ih fun q hq => h q (List.mem_cons_of_mem _ hq)]

/-- On a forward-pointing graph, the path sum is independent of the budget
once the budget covers the arena: every path has fewer than `s.length`
edges. -/
theorem pathSumF_stable (s : Arena) (hwf : WFedge s) (n : Nat) :
    ∀ k i f1 f2, s.length - i ≤ k → s.length - i ≤ f1 →
      s.length - i ≤ f2 → pathSumF f1 s i n = pathSumF f2 s i n := by
  intro k
  induction k with
  | zero =>
    intro i f1 f2 hk _ _
    have hi : s.length ≤ i := by omega
    rw [pathSumF_oob hi, pathSumF_oob hi]
  | succ k ih =>
    intro i f1 f2 hk h1 h2
    rcases Nat.lt_or_ge i s.length with hi | hi
    · obtain ⟨f1x, rfl⟩ : ∃ m, f1 = m + 1 := ⟨f1 - 1, by omega⟩
      obtain ⟨f2x, rfl⟩ : ∃ m, f2 = m + 1 := ⟨f2 - 1, by omega⟩
      rw [pathSumF_succ, pathSumF_succ]
      refine sumEdges_congr s n f1x f2x _ fun p hp => ?_
      have hlt := hwf i p hp
      exact ih p.1 f1x f2x (by omega) (by omega) (by omega)
    · rw [pathSumF_oob hi, pathSumF_oob hi]

/-- C3: on a finite acyclic (forward-pointing) graph, the gradient pass
rooted at `root` gives every node `n` exactly the sum, over all directed
edge-paths from `root` to `n`, of the products of the local gradients along
the path — entries default to 0 and distinct paths accumulate by addition —
and that path sum is budget-independent once the budget covers the arena. -/
theorem c3_gradient_path_sum (s : Arena) (root n : Nat) (hwf : WFedge s)
    (_hroot : root < s.length) :
    gradiant s root n = pathSumF s.length s root n
    ∧ ∀ fuel, s.length ≤ fuel →
        pathSumF fuel s root n = pathSumF s.length s root n := by
  constructor
  · rw [gradiant, calcGradF_eq_pathSumF]
    simp
  · intro fuel hf
    exact pathSumF_stable s hwf n s.length root fuel s.length (by omega)
      (by omega) (by omega)

/-- Witness for C3 on the two-path diamond `0 → 1 → 3`, `0 → 2 → 3`:
the entry of node 3 accumulates both path products. -/
theorem c3_gradient_path_sum_witness :
    gradiant [⟨1, [(1, 2), (2, 5)]⟩, ⟨2, [(3, 7)]⟩, ⟨3, [(3, 11)]⟩, ⟨4, []⟩]
        0 3 =
      pathSumF 4 [⟨1, [(1, 2), (2, 5)]⟩, ⟨2, [(3, 7)]⟩, ⟨3, [(3, 11)]⟩, ⟨4, []⟩]
        0 3
    ∧ ∀ fuel, 4 ≤ fuel →
        pathSumF fuel
            [⟨1, [(1, 2), (2, 5)]⟩, ⟨2, [(3, 7)]⟩, ⟨3, [(3, 11)]⟩, ⟨4, []⟩] 0 3 =
          pathSumF 4
            [⟨1, [(1, 2), (2, 5)]⟩, ⟨2, [(3, 7)]⟩, ⟨3, [(3, 11)]⟩, ⟨4, []⟩] 0 3 :=
  c3_gradient_path_sum _ 0 3 ((WFb_iff_WFedge _).mp (by decide)) (by decide)

/-! ## Claim C6 -/

theorem dualForward_ne_dim (P : Prims) (F : PyFunc) (ins : Inputs)
    (h : ins.toL.length = F.n_inputs) :
    dualForward P F ins ≠ .error .dimensionMismatch := by
  simp only [dualForward]
  rw [if_neg (by simp [h])]
  by_cases h1 : ins.toL.length = 1
  · rw [if_pos h1]
    exact bind_ne (evalBodyD_ne_dim P F.body _) fun r => by simp
  · rw [if_neg h1]
    exact bind_ne (mapM_ne _ fun idx _ => evalBodyD_ne_dim P F.body _)
      fun rs => by simp

theorem getValueF_ne_dim (P : Prims) (F : PyFunc) (ins : Inputs)
    (h : ins.toL.length = F.n_inputs) :
    getValueF P F ins ≠ .error .dimensionMismatch := by
  simp only [getValueF]
  refine bind_ne (dualForward_ne_dim P F ins h) fun r => ?_
  cases r with
  | uni br =>
    cases br with
    | one v =>
      cases v with
      | dl d => simp
      | num q => simp
      | str => simp
    | many vs =>
      exact bind_ne (mapM_ne vs fun v _ => getRealD_ne_dim v) fun l => by simp
  | multi rs =>
    cases rs with
    | nil => simp
    | cons r0 rs =>
      cases r0 with
      | one v =>
        cases v with
        | dl d =>
          refine bind_ne (mapM_ne _ fun r _ => ?_) fun l => by simp
          cases r with
          | one v => exact getRealD_ne_dim v
          | many vs => simp
        | num q => simp
        | str => simp
      | many vs =>
        refine bind_ne (mapM_ne _ fun r _ => ?_) fun l => by simp
        cases r with
        | one v => cases v <;> simp
        | many ws => exact mapM_ne ws fun w _ => getRealD_ne_dim w

theorem forwardDeriv_ne_dim (P : Prims) (F : PyFunc) (ins : Inputs)
    (h : ins.toL.length = F.n_inputs) :
    forwardDeriv P F ins ≠ .error .dimensionMismatch := by
  simp only [forwardDeriv]
  refine bind_ne (dualForward_ne_dim P F ins h) fun r => ?_
  cases r with
  | uni br =>
    cases br with
    | one v =>
      cases v with
      | dl d => simp
      | num q => simp
      | str => simp
    | many vs =>
      exact bind_ne (mapM_ne vs fun v _ => getDualD_ne_dim v) fun l => by simp
  | multi rs =>
    cases rs with
    | nil => simp
    | cons r0 rs =>
      cases r0 with
      | one v =>
        cases v with
        | dl d =>
          refine bind_ne (mapM_ne _ fun r _ => ?_) fun l => by simp
          cases r with
          | one v => exact getDualD_ne_dim v
          | many vs => simp
        | num q => simp
        | str => simp
      | many vs =>
        refine bind_ne (mapM_ne _ fun r _ => ?_) fun l => by simp
        cases r with
        | one v => cases v <;> simp
        | many ws => exact mapM_ne ws fun w _ => getDualD_ne_dim w

theorem getValueR_ne_dim (P : Prims) (F : PyFunc) (ins : Inputs)
    (h : ins.toL.length = F.n_inputs) :
    getValueR P F ins ≠ .error .dimensionMismatch := by
  simp only [getValueR]
  rw [if_neg (by simp [h])]
  refine bind_ne (evalBodyN_ne_dim P F.body _ _) fun p => ?_
  obtain ⟨s1, r⟩ := p
  cases r with
  | one v =>
    cases v with
    | node i => simp
    | num q => simp
    | str => simp
  | many vs =>
    refine bind_ne (mapM_ne vs fun v _ => ?_) fun l => by simp
    cases v <;> simp

theorem reverseMultiPath_ne_dim (P : Prims) (b : Body) (s1 : Arena)
    (n : Nat) : reverseMultiPath P b s1 n ≠ .error .dimensionMismatch := by
  unfold reverseMultiPath
  cases reverseMultiInner P b s1 n <;> simp

theorem reverseDeriv_ne_dim (P : Prims) (F : PyFunc) (ins : Inputs)
    (h : ins.toL.length = F.n_inputs) :
    reverseDeriv P F ins ≠ .error .dimensionMismatch := by
  simp only [reverseDeriv]
  rw [if_neg (by simp [h])]
  refine bind_ne (evalBodyN_ne_dim P F.body _ _) fun p => ?_
  obtain ⟨s1, r⟩ := p
  cases r with
  | one v =>
    cases v with
    | node c =>
      dsimp only
      by_cases h1 : ins.toL.length = 1
      · rw [if_pos h1]; simp
      · rw [if_neg h1]; simp
    | num q => exact reverseMultiPath_ne_dim P F.body s1 _
    | str => exact reverseMultiPath_ne_dim P F.body s1 _
  | many vs => exact reverseMultiPath_ne_dim P F.body s1 _

/-- C6: with a captured function of arity `N`, every input whose converted
length differs from `N` (a raw scalar counts as length 1) makes all four
public operations — value and derivative, forward and reverse — fail with
the dimension-mismatch error, for every body (so before the user function
can contribute anything); and a length-`N` input never produces a
dimension mismatch from any of the four. -/
theorem c6_dimension_mismatch (P : Prims) (N : Nat) (b : Body)
    (ins : Inputs) :
    (ins.toL.length ≠ N →
      getValueF P ⟨N, b⟩ ins = .error .dimensionMismatch
      ∧ forwardDeriv P ⟨N, b⟩ ins = .error .dimensionMismatch
      ∧ getValueR P ⟨N, b⟩ ins = .error .dimensionMismatch
      ∧ reverseDeriv P ⟨N, b⟩ ins = .error .dimensionMismatch)
    ∧ (ins.toL.length = N →
      getValueF P ⟨N, b⟩ ins ≠ .error .dimensionMismatch
      ∧ forwardDeriv P ⟨N, b⟩ ins ≠ .error .dimensionMismatch
      ∧ getValueR P ⟨N, b⟩ ins ≠ .error .dimensionMismatch
      ∧ reverseDeriv P ⟨N, b⟩ ins ≠ .error .dimensionMismatch) := by
  constructor
  · intro h
    have hd : dualForward P ⟨N, b⟩ ins = .error .dimensionMismatch := by
      simp only [dualForward]
      rw [if_pos h]
    refine ⟨?_, ?_, ?_, ?_⟩
    · simp [getValueF, hd, Bind.bind, Except.bind]
    · simp [forwardDeriv, hd, Bind.bind, Except.bind]
    · simp only [getValueR]
      rw [if_pos h]
    · simp only [reverseDeriv]
      rw [if_pos h]
  · intro h
    exact ⟨getValueF_ne_dim P _ ins h, forwardDeriv_ne_dim P _ ins h,
      getValueR_ne_dim P _ ins h, reverseDeriv_ne_dim P _ ins h⟩

/-- Witness for C6 at arity 2: the length-1 scalar input mismatches (all
four operations fail with the dimension error), the length-2 list matches
(none of the four returns that error). -/
theorem c6_dimension_mismatch_witness :
    (getValueF Pid ⟨2, .single (.var 0)⟩ (.scalarIn 3) =
        .error .dimensionMismatch
      ∧ forwardDeriv Pid ⟨2, .single (.var 0)⟩ (.scalarIn 3) =
        .error .dimensionMismatch
      ∧ getValueR Pid ⟨2, .single (.var 0)⟩ (.scalarIn 3) =
        .error .dimensionMismatch
      ∧ reverseDeriv Pid ⟨2, .single (.var 0)⟩ (.scalarIn 3) =
        .error .dimensionMismatch)
    ∧ (getValueF Pid ⟨2, .single (.var 0)⟩ (.listIn [1, 2]) ≠
        .error .dimensionMismatch
      ∧ forwardDeriv Pid ⟨2, .single (.var 0)⟩ (.listIn [1, 2]) ≠
        .error .dimensionMismatch
      ∧ getValueR Pid ⟨2, .single (.var 0)⟩ (.listIn [1, 2]) ≠
        .error .dimensionMismatch
      ∧ reverseDeriv Pid ⟨2, .single (.var 0)⟩ (.listIn [1, 2]) ≠
        .error .dimensionMismatch) :=
  ⟨(c6_dimension_mismatch Pid 2 (.single (.var 0)) (.scalarIn 3)).1
      (by decide),
    (c6_dimension_mismatch Pid 2 (.single (.var 0)) (.listIn [1, 2])).2
      (by decide)⟩

/-! ## Claim C4 -/

/-- C4: for every library elementary function `e`, the forward-mode
derivative `Forward(e).forward([x])` and the reverse-mode derivative
`Reverse(e).reverse([x])` of the one-argument program `fun x => e(x)` are
both exactly the claim's closed-form derivative `e'(x)` (`claimDeriv`), so
they agree with each other and with the closed form.  As in C1, the
hypothesis ties the external `** -0.5` primitive to `1 / sqrt`, which the
reverse-mode `sqrt` rule uses. -/
theorem c4_forward_reverse_agree (P : Prims) (e : ElemFn) (x : ℚ)
    (hpow : ∀ y, P.powf y (-(1 / 2)) = 1 / P.sqrt y) :
    forwardDeriv P ⟨1, .single (.elem e (.var 0))⟩ (.listIn [x]) =
        .ok (.scalar (claimDeriv P e x))
    ∧ reverseDeriv P ⟨1, .single (.elem e (.var 0))⟩ (.listIn [x]) =
        .ok (.scalar (claimDeriv P e x)) := by
  constructor
  · have h1 : forwardDeriv P ⟨1, .single (.elem e (.var 0))⟩ (.listIn [x]) =
        .ok (.scalar (elemDualPart P e x 1)) := rfl
    rw [h1, elemDualPart_eq_claimDeriv, mul_one]
  · have h2 : reverseDeriv P ⟨1, .single (.elem e (.var 0))⟩ (.listIn [x]) =
        .ok (.scalar (0 + 1 * elemEdge P e x)) := rfl
    rw [h2, elemEdge_eq_claimDeriv P e x hpow]
    norm_num

/-- Witness for C4 at `e = tanh`, `x = 2`. -/
theorem c4_forward_reverse_agree_witness :
    forwardDeriv Pid ⟨1, .single (.elem .tanh (.var 0))⟩ (.listIn [2]) =
        .ok (.scalar (claimDeriv Pid .tanh 2))
    ∧ reverseDeriv Pid ⟨1, .single (.elem .tanh (.var 0))⟩ (.listIn [2]) =
        .ok (.scalar (claimDeriv Pid .tanh 2)) :=
  c4_forward_reverse_agree Pid .tanh 2 Pid_pow_sqrt

/-! ## Claim C5 -/

theorem devalE_okOut (P : Prims) (env : List Dual) (e : Expr)
    (h : okOut e = true) : ∃ d, devalE P env e = .ok (.dl d) := by
  rw [okOut, Bool.and_eq_true] at h
  rcases devalE_total P env e h.1 with ⟨_, d, hd⟩ | ⟨hf, _⟩
  · exact ⟨d, hd⟩
  · rw [h.2] at hf
    cases hf

theorem nevalE_okOut (P : Prims) (env : List Nat) (e : Expr) (s : Arena)
    (h : okOut e = true) : ∃ s' c, nevalE P env e s = .ok (s', .node c) := by
  rw [okOut, Bool.and_eq_true] at h
  rcases nevalE_total P env e h.1 s with ⟨_, s', c, hc⟩ | ⟨hf, _⟩
  · exact ⟨s', c, hc⟩
  · rw [h.2] at hf
    cases hf

theorem dualForward_uni_eq (P : Prims) (b : Body) (xs : List ℚ)
    (h1 : xs.length = 1) :
    dualForward P ⟨xs.length, b⟩ (.listIn xs) =
      Except.map DFRes.uni (evalBodyD P b (seedsUni xs)) := by
  simp only [dualForward, Inputs.toL]
  rw [if_neg (by simp), if_pos h1]
  exact bind_ok_eq_map _ _

theorem dualForward_multi_eq (P : Prims) (b : Body) (xs : List ℚ)
    (h1 : xs.length ≠ 1) :
    dualForward P ⟨xs.length, b⟩ (.listIn xs) =
      Except.map DFRes.multi
        ((List.range xs.length).mapM fun idx => evalBodyD P b (oneHot xs idx)) := by
  simp only [dualForward, Inputs.toL]
  rw [if_neg (by simp), if_neg h1]
  exact bind_ok_eq_map _ _

theorem evalBodyD_single_ok (P : Prims) (e : Expr) (env : List Dual)
    (h : okOut e = true) :
    ∃ d, evalBodyD P (.single e) env = .ok (.one (.dl d)) := by
  obtain ⟨d, hd⟩ := devalE_okOut P env e h
  exact ⟨d, by simp [evalBodyD, hd, Bind.bind, Except.bind]⟩

theorem evalBodyD_multiList_ok (P : Prims) (es : List Expr) (env : List Dual)
    (h : ∀ e ∈ es, okOut e = true) :
    ∃ vs, evalBodyD P (.multiList es) env = .ok (.many vs)
      ∧ vs.length = es.length ∧ ∀ v ∈ vs, ∃ d, v = DVal.dl d := by
  obtain ⟨vs, hm, hlen, hp⟩ :=
    mapM_ok (devalE P env) (fun v => ∃ d, v = DVal.dl d) es fun e he => by
      obtain ⟨d, hd⟩ := devalE_okOut P env e (h e he)
      exact ⟨.dl d, hd, d, rfl⟩
  refine ⟨vs, ?_, hlen, hp⟩
  simp only [evalBodyD]
  rw [hm]
  rfl

theorem mapM_getDualD_ok (vs : List DVal)
    (h : ∀ v ∈ vs, ∃ d, v = DVal.dl d) :
    ∃ l, vs.mapM getDualD = .ok l ∧ l.length = vs.length := by
  obtain ⟨l, hm, hlen, _⟩ := mapM_ok getDualD (fun _ => True) vs fun v hv => by
    obtain ⟨d, rfl⟩ := h v hv
    exact ⟨d.dual, rfl, trivial⟩
  exact ⟨l, hm, hlen⟩

theorem evalBodyN_single_ok (P : Prims) (e : Expr) (env : List Nat)
    (s : Arena) (h : okOut e = true) :
    ∃ s' c, evalBodyN P (.single e) env s = .ok (s', .one (.node c)) := by
  obtain ⟨s', c, hc⟩ := nevalE_okOut P env e s h
  exact ⟨s', c, by simp [evalBodyN, hc, Bind.bind, Except.bind]⟩

theorem evalBodyN_multiList_ok (P : Prims) (es : List Expr) (env : List Nat)
    (s : Arena) (h : ∀ e ∈ es, okOut e = true) :
    ∃ s' vs, evalBodyN P (.multiList es) env s = .ok (s', .many vs) := by
  obtain ⟨s', vs, hm, _, _⟩ := evalListN_ok P env es
    (fun e he => by
      have := h e he
      rw [okOut, Bool.and_eq_true] at this
      exact this.1) s
  exact ⟨s', vs, by simp [evalBodyN, hm, Bind.bind, Except.bind]⟩

theorem reverseMultiInner_multiList_ok (P : Prims) (es : List Expr)
    (s1 : Arena) (n : Nat) (h : ∀ e ∈ es, okOut e = true) :
    ∃ rows, (es.mapM fun e => do
        let (sk, v) ← nevalE P (List.range n) e s1
        Except.ok ((List.range n).map fun i => gradEntry (gradiant sk i) v))
      = .ok rows ∧ rows.length = es.length
      ∧ ∀ r ∈ rows, r.length = n := by
  refine mapM_ok
    (fun e => do
      let (sk, v) ← nevalE P (List.range n) e s1
      Except.ok ((List.range n).map fun i => gradEntry (gradiant sk i) v))
    (fun r => r.length = n) es fun e he => ?_
  obtain ⟨sk, c, hk⟩ := nevalE_okOut P (List.range n) e s1 (h e he)
  refine ⟨(List.range n).map fun i => gradEntry (gradiant sk i) (.node c),
    ?_, by simp⟩
  simp [hk, Bind.bind, Except.bind]

theorem forwardShape_single_uni (P : Prims) (xs : List ℚ) (e : Expr)
    (hok : okOut e = true) (h1 : xs.length = 1) :
    ∃ q, forwardDeriv P ⟨xs.length, .single e⟩ (.listIn xs) =
      .ok (.scalar q) := by
  obtain ⟨d, hd⟩ := evalBodyD_single_ok P e (seedsUni xs) hok
  refine ⟨d.dual, ?_⟩
  simp only [forwardDeriv]
  rw [dualForward_uni_eq P _ xs h1]
  rw [hd]
  rfl

theorem reverseShape_single_uni (P : Prims) (xs : List ℚ) (e : Expr)
    (hok : okOut e = true) (h1 : xs.length = 1) :
    ∃ q, reverseDeriv P ⟨xs.length, .single e⟩ (.listIn xs) =
      .ok (.scalar q) := by
  obtain ⟨s', c, hc⟩ :=
    evalBodyN_single_ok P e (List.range xs.length) (seedArena xs) hok
  refine ⟨gradiant s' 0 c, ?_⟩
  simp only [reverseDeriv, Inputs.toL]
  rw [if_neg (by simp)]
  rw [hc]
  simp [Bind.bind, Except.bind, h1]

theorem forwardShape_single_multi (P : Prims) (xs : List ℚ) (e : Expr)
    (hok : okOut e = true) (h2 : 1 < xs.length) :
    ∃ v, forwardDeriv P ⟨xs.length, .single e⟩ (.listIn xs) =
      .ok (.vec v) ∧ v.length = xs.length := by
  have hne : xs.length ≠ 1 := by omega
  obtain ⟨rs, hrs, hrslen, hrshape⟩ :=
    mapM_ok (fun idx => evalBodyD P (.single e) (oneHot xs idx))
      (fun r => ∃ d, r = BRes.one (.dl d)) (List.range xs.length)
      fun idx _ => by
        obtain ⟨d, hd⟩ := evalBodyD_single_ok P e (oneHot xs idx) hok
        exact ⟨_, hd, d, rfl⟩
  rw [List.length_range] at hrslen
  obtain ⟨r0, rest, rfl⟩ : ∃ r0 rest, rs = r0 :: rest := by
    cases rs with
    | nil => exfalso; simp at hrslen; omega
    | cons r0 rest => exact ⟨r0, rest, rfl⟩
  obtain ⟨d0, rfl⟩ := hrshape _ (List.mem_cons_self _ _)
  obtain ⟨vals, hvals, hvalslen, _⟩ :=
    mapM_ok
      (fun r => match r with
        | BRes.one v => getDualD v
        | BRes.many _ => Except.error PyErr.attributeError)
      (fun _ => True) (BRes.one (DVal.dl d0) :: rest)
      fun r hr => by
        obtain ⟨d, rfl⟩ := hrshape r hr
        exact ⟨d.dual, rfl, trivial⟩
  refine ⟨vals, ?_, hvalslen.trans hrslen⟩
  simp only [forwardDeriv]
  rw [dualForward_multi_eq P _ xs hne]
  rw [hrs]
  show (do
    let vals2 ← (BRes.one (DVal.dl d0) :: rest).mapM fun r =>
      match r with
      | BRes.one v => getDualD v
      | BRes.many _ => Except.error PyErr.attributeError
    Except.ok (JRes.vec vals2)) = Except.ok (JRes.vec vals)
  rw [hvals]
  rfl

theorem reverseShape_single_multi (P : Prims) (xs : List ℚ) (e : Expr)
    (hok : okOut e = true) (h2 : 1 < xs.length) :
    ∃ v, reverseDeriv P ⟨xs.length, .single e⟩ (.listIn xs) =
      .ok (.vec v) ∧ v.length = xs.length := by
  have hne : xs.length ≠ 1 := by omega
  obtain ⟨s', c, hc⟩ :=
    evalBodyN_single_ok P e (List.range xs.length) (seedArena xs) hok
  refine ⟨(List.range xs.length).map fun i => gradiant s' i c, ?_, by simp⟩
  simp only [reverseDeriv, Inputs.toL]
  rw [if_neg (by simp)]
  rw [hc]
  show (if xs.length = 1 then
      Except.ok (JRes.scalar (gradiant s' 0 c))
    else Except.ok (JRes.vec
      ((List.range xs.length).map fun i => gradiant s' i c))) = _
  rw [if_neg hne]

theorem forwardShape_multi_uni (P : Prims) (xs : List ℚ) (es : List Expr)
    (hok : ∀ e ∈ es, okOut e = true) (h1 : xs.length = 1) :
    ∃ v, forwardDeriv P ⟨xs.length, .multiList es⟩ (.listIn xs) =
      .ok (.vec v) ∧ v.length = es.length := by
  obtain ⟨vs, hvs, hvslen, hshape⟩ :=
    evalBodyD_multiList_ok P es (seedsUni xs) hok
  obtain ⟨l, hl, hllen⟩ := mapM_getDualD_ok vs hshape
  refine ⟨l, ?_, hllen.trans hvslen⟩
  simp only [forwardDeriv]
  rw [dualForward_uni_eq P _ xs h1]
  rw [hvs]
  show (do
    let l2 ← vs.mapM getDualD
    Except.ok (JRes.vec l2)) = Except.ok (JRes.vec l)
  rw [hl]
  rfl

theorem reverseShape_multi_uni (P : Prims) (xs : List ℚ) (es : List Expr)
    (hok : ∀ e ∈ es, okOut e = true) (h1 : xs.length = 1) :
    ∃ v, reverseDeriv P ⟨xs.length, .multiList es⟩ (.listIn xs) =
      .ok (.vec v) ∧ v.length = es.length := by
  obtain ⟨s1, vs, hbody⟩ :=
    evalBodyN_multiList_ok P es (List.range xs.length) (seedArena xs) hok
  obtain ⟨rows, hrows, hrowslen, _⟩ :=
    reverseMultiInner_multiList_ok P es s1 xs.length hok
  refine ⟨rows.map fun r => r.headD 0, ?_, by simp [hrowslen]⟩
  simp only [reverseDeriv, Inputs.toL]
  rw [if_neg (by simp)]
  rw [hbody]
  show reverseMultiPath P (.multiList es) s1 xs.length = _
  unfold reverseMultiPath
  have hinner : reverseMultiInner P (.multiList es) s1 xs.length =
      .ok (.vec (rows.map fun r => r.headD 0)) := by
    simp only [reverseMultiInner]
    rw [hrows]
    show (if xs.length = 1 then
        Except.ok (JRes.vec (rows.map fun r => r.headD 0))
      else Except.ok (JRes.mat rows)) = _
    rw [if_pos h1]
  rw [hinner]

theorem reverseShape_multi_multi (P : Prims) (xs : List ℚ) (es : List Expr)
    (hok : ∀ e ∈ es, okOut e = true) (h2 : 1 < xs.length) :
    ∃ m, reverseDeriv P ⟨xs.length, .multiList es⟩ (.listIn xs) =
      .ok (.mat m) ∧ m.length = es.length ∧ ∀ r ∈ m, r.length = xs.length := by
  have hne : xs.length ≠ 1 := by omega
  obtain ⟨s1, vs, hbody⟩ :=
    evalBodyN_multiList_ok P es (List.range xs.length) (seedArena xs) hok
  obtain ⟨rows, hrows, hrowslen, hrowshape⟩ :=
    reverseMultiInner_multiList_ok P es s1 xs.length hok
  refine ⟨rows, ?_, hrowslen, hrowshape⟩
  simp only [reverseDeriv, Inputs.toL]
  rw [if_neg (by simp)]
  rw [hbody]
  show reverseMultiPath P (.multiList es) s1 xs.length = _
  unfold reverseMultiPath
  have hinner : reverseMultiInner P (.multiList es) s1 xs.length =
      .ok (.mat rows) := by
    simp only [reverseMultiInner]
    rw [hrows]
    show (if xs.length = 1 then
        Except.ok (JRes.vec (rows.map fun r => r.headD 0))
      else Except.ok (JRes.mat rows)) = _
    rw [if_neg hne]
  rw [hinner]

theorem forwardShape_multi_multi (P : Prims) (xs : List ℚ) (es : List Expr)
    (hok : ∀ e ∈ es, okOut e = true) (h2 : 1 < xs.length) :
    ∃ m, forwardDeriv P ⟨xs.length, .multiList es⟩ (.listIn xs) =
      .ok (.mat m) ∧ m.length = es.length ∧ ∀ r ∈ m, r.length = xs.length := by
  have hne : xs.length ≠ 1 := by omega
  obtain ⟨rs, hrs, hrslen, hrshape⟩ :=
    mapM_ok (fun idx => evalBodyD P (.multiList es) (oneHot xs idx))
      (fun r => ∃ vs, r = BRes.many vs ∧ vs.length = es.length
        ∧ ∀ v ∈ vs, ∃ d, v = DVal.dl d)
      (List.range xs.length)
      fun idx _ => by
        obtain ⟨vs, hvs, hvslen, hsh⟩ :=
          evalBodyD_multiList_ok P es (oneHot xs idx) hok
        exact ⟨_, hvs, vs, rfl, hvslen, hsh⟩
  rw [List.length_range] at hrslen
  obtain ⟨r0, rest, rfl⟩ : ∃ r0 rest, rs = r0 :: rest := by
    cases rs with
    | nil => exfalso; simp at hrslen; omega
    | cons r0 rest => exact ⟨r0, rest, rfl⟩
  obtain ⟨vs0, rfl, hvs0len, _⟩ := hrshape _ (List.mem_cons_self _ _)
  obtain ⟨rows, hrows, hrowslen, hrowshape⟩ :=
    mapM_ok
      (fun r => match r with
        | BRes.many vs => vs.mapM getDualD
        | BRes.one _ => Except.error PyErr.typeError)
      (fun row => row.length = es.length) (BRes.many vs0 :: rest)
      fun r hr => by
        obtain ⟨vs, rfl, hvslen, hsh⟩ := hrshape r hr
        obtain ⟨row, hrow, hrowlen⟩ := mapM_getDualD_ok vs hsh
        exact ⟨row, hrow, hrowlen.trans hvslen⟩
  refine ⟨transposeT rows, ?_, ?_, ?_⟩
  · simp only [forwardDeriv]
    rw [dualForward_multi_eq P _ xs hne]
    rw [hrs]
    show (do
      let rows2 ← (BRes.many vs0 :: rest).mapM fun r =>
        match r with
        | BRes.many vs => vs.mapM getDualD
        | BRes.one _ => Except.error PyErr.typeError
      Except.ok (JRes.mat (transposeT rows2))) = _
    rw [hrows]
    rfl
  · rw [transposeT_length]
    obtain ⟨row0, rest2, hrows2⟩ : ∃ row0 rest2, rows = row0 :: rest2 := by
      cases rows with
      | nil => simp at hrowslen
      | cons row0 rest2 => exact ⟨row0, rest2, rfl⟩
    rw [hrows2]
    exact hrowshape row0 (by rw [hrows2]; exact List.mem_cons_self _ _)
  · intro r hr
    rw [transposeT_rows rows r hr, hrowslen]
    simp [hrslen]

/-- C5: Jacobian shape table.  For a captured function of arity `N = length
of the valid input` whose output expressions satisfy the differentiable-
function contract (no non-numeric atoms, each output mentions a parameter):
a single output and `N = 1` give a scalar; a single output and `N > 1` give
a length-`N` vector; `M ≥ 2` outputs and `N = 1` give a length-`M` vector;
`M ≥ 2` outputs and `N > 1` give an `M × N` matrix (rows indexed by output,
columns by input) — in both engines' derivative operations. -/
theorem c5_jacobian_shapes (P : Prims) (xs : List ℚ) :
    (∀ e, okOut e = true →
      (xs.length = 1 →
        (∃ q, forwardDeriv P ⟨xs.length, .single e⟩ (.listIn xs) =
          .ok (.scalar q))
        ∧ ∃ q, reverseDeriv P ⟨xs.length, .single e⟩ (.listIn xs) =
          .ok (.scalar q))
      ∧ (1 < xs.length →
        (∃ v, forwardDeriv P ⟨xs.length, .single e⟩ (.listIn xs) =
          .ok (.vec v) ∧ v.length = xs.length)
        ∧ ∃ v, reverseDeriv P ⟨xs.length, .single e⟩ (.listIn xs) =
          .ok (.vec v) ∧ v.length = xs.length))
    ∧ (∀ es : List Expr, 2 ≤ es.length → (∀ e ∈ es, okOut e = true) →
      (xs.length = 1 →
        (∃ v, forwardDeriv P ⟨xs.length, .multiList es⟩ (.listIn xs) =
          .ok (.vec v) ∧ v.length = es.length)
        ∧ ∃ v, reverseDeriv P ⟨xs.length, .multiList es⟩ (.listIn xs) =
          .ok (.vec v) ∧ v.length = es.length)
      ∧ (1 < xs.length →
        (∃ m, forwardDeriv P ⟨xs.length, .multiList es⟩ (.listIn xs) =
          .ok (.mat m) ∧ m.length = es.length ∧ ∀ r ∈ m, r.length = xs.length)
        ∧ ∃ m, reverseDeriv P ⟨xs.length, .multiList es⟩ (.listIn xs) =
          .ok (.mat m) ∧ m.length = es.length ∧
            ∀ r ∈ m, r.length = xs.length)) := by
  constructor
  · intro e hok
    exact ⟨fun h1 => ⟨forwardShape_single_uni P xs e hok h1,
        reverseShape_single_uni P xs e hok h1⟩,
      fun h2 => ⟨forwardShape_single_multi P xs e hok h2,
        reverseShape_single_multi P xs e hok h2⟩⟩
  · intro es _ hok
    exact ⟨fun h1 => ⟨forwardShape_multi_uni P xs es hok h1,
        reverseShape_multi_uni P xs es hok h1⟩,
      fun h2 => ⟨forwardShape_multi_multi P xs es hok h2,
        reverseShape_multi_multi P xs es hok h2⟩⟩

/-- Witness for C5: arity 2, input `[1, 2]`, single output `x*y` and the
two-output list `[x, x*y]`; all contract hypotheses discharged. -/
theorem c5_jacobian_shapes_witness :
    ((∃ v, forwardDeriv Pid ⟨2, .single (.mul (.var 0) (.var 1))⟩
        (.listIn [1, 2]) = .ok (.vec v) ∧ v.length = 2)
      ∧ ∃ v, reverseDeriv Pid ⟨2, .single (.mul (.var 0) (.var 1))⟩
        (.listIn [1, 2]) = .ok (.vec v) ∧ v.length = 2)
    ∧ ((∃ m, forwardDeriv Pid ⟨2, .multiList [.var 0, .mul (.var 0) (.var 1)]⟩
        (.listIn [1, 2]) = .ok (.mat m) ∧
          m.length = ([Expr.var 0, .mul (.var 0) (.var 1)] : List Expr).length ∧
          ∀ r ∈ m, r.length = 2)
      ∧ ∃ m, reverseDeriv Pid ⟨2, .multiList [.var 0, .mul (.var 0) (.var 1)]⟩
        (.listIn [1, 2]) = .ok (.mat m) ∧
          m.length = ([Expr.var 0, .mul (.var 0) (.var 1)] : List Expr).length ∧
          ∀ r ∈ m, r.length = 2) :=
  ⟨((c5_jacobian_shapes Pid [1, 2]).1 (.mul (.var 0) (.var 1))
      (by decide)).2 (by decide),
    ((c5_jacobian_shapes Pid [1, 2]).2 [.var 0, .mul (.var 0) (.var 1)]
      (by decide) (by decide)).2 (by decide)⟩

/-- Witness for C10 at a body whose source extraction fails
(`multiOpaque`), a one-node graph, one input. -/
theorem c10_multi_output_error_containment_witness :
    ((∃ r, reverseMultiPath Pid (.multiOpaque [.var 0]) [⟨1, []⟩] 1 = .ok r) ∨
      reverseMultiPath Pid (.multiOpaque [.var 0]) [⟨1, []⟩] 1 =
        .error .multiOutputParseFailure)
    ∧ ∀ er, reverseMultiInner Pid (.multiOpaque [.var 0]) [⟨1, []⟩] 1 =
          .error er →
        reverseMultiPath Pid (.multiOpaque [.var 0]) [⟨1, []⟩] 1 =
          .error .multiOutputParseFailure :=
  c10_multi_output_error_containment Pid (.multiOpaque [.var 0]) [⟨1, []⟩] 1
